import Mathlib

/-!
# Verification of the vertical-text pagination engine

Shallow embedding of the pagination core of the e-book reader front-end:

* `src/lib/utils/text-measurement.ts` — `TextMeasurer` (`getPageCapacity`,
  `fitTextToPage`);
* `src/lib/utils/pagination-calculator.ts` — `PaginationCalculator`
  (`calculatePages`, `splitLargeBlock`, `findPageByPosition`);
* `src/unnamed/part_005` (the `useVerticalTextPagination` hook) —
  `findFittingText` (binary search + kinsoku) and `calculatePagination`;
* `src/lib/utils/content-position-finder.ts` — `enrichPageWithMetadata`,
  `getContentPositionFromPage`, `findPageByBlockId`,
  `findNearestPageToPosition`.

Modelling conventions:

* JS strings are `List Char`; `substring (0, n)` is `take n`,
  `substring (n)` is `drop n`.
* JS numbers are `ℤ` where the code only ever holds integers (lengths, ids,
  capacities) and `ℚ` where fractional values flow (geometry, the `* 0.8`
  and `* 0.7` factors, measured widths).  Floating point rounding is not
  modelled; `0.8` and `0.7` are the exact rationals `4/5` and `7/10`.
* The DOM measurement oracle (`scrollWidth` of the hidden measurement
  element) is an abstract parameter `measure : List Char → ℚ`.
* `while` loops are embedded as fuel recursion where the loop bound depends
  on an abstract parameter, with the fuel instantiated at each call site to
  a provably sufficient value (the length of the text being consumed); the
  fuel-exhaustion branches are proved unreachable for those instantiations.
* Nondeterministic page-id strings (`Date.now()`/`Math.random()`) are not
  modelled; no claim concerns them.
-/

namespace Chavel


/-! ## Data model (`src/types/pagination` in `src/unnamed/part_013`,
`src/types/book.ts`) -/

/-- `Block.type` from `src/types/pagination`: `'paragraph' | 'conversation'`.
(`src/types/book.ts` declares `type: string`; `src/unnamed/part_005` casts it
to this union, so the union is the honest domain.) -/
inductive BlockType where
  | paragraph
  | conversation
deriving DecidableEq, Repr

/-- `Block` from `src/types/pagination`. -/
structure Block where
  id : ℤ
  btype : BlockType
  text : List Char
deriving DecidableEq, Repr

/-- `Chapter` from `src/types/pagination`. -/
structure Chapter where
  id : ℤ
  title : List Char
  blocks : List Block
deriving DecidableEq, Repr

/-- `BookContent` from `src/types/pagination` (the `id`/`title`/`author`
metadata fields are carried along but never read by the pagination code). -/
structure BookContent where
  id : ℤ
  title : List Char
  author : List Char
  chapters : List Chapter
deriving DecidableEq, Repr

/-- `PagePosition` from `src/types/pagination`. -/
structure PagePosition where
  chapterId : ℤ
  blockId : ℤ
  characterStart : ℤ
  characterEnd : ℤ
deriving DecidableEq, Repr

/-- `Page` from `src/types/pagination` (used by `PaginationCalculator`):
`content` is a `string[]`, one entry per contributing block fragment. -/
structure PCPage where
  id : ℤ
  position : PagePosition
  content : List (List Char)
  totalCharacters : ℤ
deriving DecidableEq, Repr

/-- `ContentPosition` from `src/lib/utils/reading-state`
(`src/unnamed/part_010`). -/
structure ContentPosition where
  chapterId : ℤ
  blockId : ℤ
  characterOffset : ℤ
deriving DecidableEq, Repr

/-! ## Text Measurement Surface (`src/lib/utils/text-measurement.ts`) -/

/-- Result record of `TextMeasurer.getPageCapacity`. -/
structure PageCapacity where
  charactersPerLine : ℤ
  linesPerPage : ℤ
  totalCharacters : ℤ
deriving DecidableEq, Repr

/-- `TextMeasurer.getPageCapacity`.  `characterWidth` stands for
`this.getCharacterWidth()` (a DOM-measured average character width, or the
`fontSize * 0.6` fallback); it is kept abstract as a parameter.  Division is
exact rational division followed by `Math.floor`; the JS `Infinity` results
of dividing by a zero `characterWidth` or zero `fontSize * lineHeight` are
not modelled (Lean's `x / 0 = 0` gives capacity `0` there instead). -/
def getPageCapacity (containerWidth containerHeight fontSize lineHeight
    characterWidth : ℚ) : PageCapacity :=
  if containerWidth ≤ 0 ∨ containerHeight ≤ 0 then
    { charactersPerLine := 0, linesPerPage := 0, totalCharacters := 0 }
  else
    let lineHeightPx := fontSize * lineHeight
    let linesPerPage := max 0 ⌊containerHeight / lineHeightPx⌋
    let charactersPerLine := max 0 ⌊containerWidth / characterWidth⌋
    { charactersPerLine := charactersPerLine,
      linesPerPage := linesPerPage,
      totalCharacters := charactersPerLine * linesPerPage }

/-- The character class `/[。！？\n\s]/` used by `fitTextToPage` to look for a
sentence-ish break (`\s` matches the usual JS whitespace characters). -/
def jsPunct (c : Char) : Bool :=
  c = '。' || c = '！' || c = '？' || c = '\n' || c = ' ' || c = '\t' ||
  c = '\r' || c = '\x0b' || c = '\x0c' || c = ' '

/-- The backwards scan
`for (let i = cutPoint; i > cutPoint * 0.7 && i > 0; i--)` of
`fitTextToPage`: starting from `i = cutPoint` it walks down while
`i > cutPoint * 0.7` and `i > 0`, and on the first position whose character
matches `jsPunct` it stops with `lastGoodCut = i + 1`; if the scan runs out
it leaves `lastGoodCut` at its initial value `cutPoint`. -/
def lastGoodCutGo (text : List Char) (cutPoint : ℕ) : ℕ → ℕ
  | 0 => cutPoint
  | i + 1 =>
    if ((i + 1 : ℕ) : ℚ) > (cutPoint : ℚ) * (7 / 10) then
      if jsPunct (text.getD (i + 1) 'x') then (i + 1) + 1
      else lastGoodCutGo text cutPoint i
    else cutPoint

/-- `TextMeasurer.fitTextToPage`, with the two integers destructured from
`this.getPageCapacity()` passed explicitly.  Returns the pair
`(fittedText, remainingText)`. -/
def fitTextToPage (totalCharacters linesPerPage : ℤ) (text : List Char) :
    List Char × List Char :=
  if text = [] ∨ totalCharacters ≤ 0 ∨ linesPerPage ≤ 0 then ([], text)
  else if (text.length : ℤ) ≤ totalCharacters then (text, [])
  else
    let safeCharacterCount := (max 1 ⌊(totalCharacters : ℚ) * (4 / 5)⌋).toNat
    let cutPoint := min safeCharacterCount text.length
    let lastGoodCut := lastGoodCutGo text cutPoint cutPoint
    let finalCutPoint := if lastGoodCut > 0 then lastGoodCut else max 1 cutPoint
    (text.take finalCutPoint, text.drop finalCutPoint)

/-! ## Pagination calculator (`src/lib/utils/pagination-calculator.ts`) -/

/-- The `while (remainingText.length > 0)` loop of
`PaginationCalculator.splitLargeBlock`, as fuel recursion.  Each iteration
asks `fitTextToPage` for a page-sized split of the remaining text; if
nothing fits it forces the single character `remainingText.charAt(0)` onto a
page of its own.  One unit of fuel per iteration; every iteration consumes
at least one character, so fuel `remainingText.length` is always enough (the
`0, _ :: _` branch is unreachable then — see `splitLargeBlockLoop_fuel`). -/
def splitLargeBlockLoop (totalCharacters linesPerPage chapterId blockId : ℤ) :
    ℕ → List Char → ℤ → ℤ → List PCPage
  | _, [], _, _ => []
  | 0, _ :: _, _, _ => []
  | fuel + 1, c :: cs, characterStart, pageId =>
    let r := fitTextToPage totalCharacters linesPerPage (c :: cs)
    if r.1 = [] then
      { id := pageId,
        position := { chapterId := chapterId, blockId := blockId,
                      characterStart := characterStart,
                      characterEnd := characterStart + 1 },
        content := [(c :: cs).take 1], totalCharacters := 1 } ::
      splitLargeBlockLoop totalCharacters linesPerPage chapterId blockId fuel
        ((c :: cs).drop 1) (characterStart + 1) (pageId + 1)
    else
      { id := pageId,
        position := { chapterId := chapterId, blockId := blockId,
                      characterStart := characterStart,
                      characterEnd := characterStart + r.1.length },
        content := [r.1], totalCharacters := r.1.length } ::
      splitLargeBlockLoop totalCharacters linesPerPage chapterId blockId fuel
        r.2 (characterStart + r.1.length) (pageId + 1)

/-- `PaginationCalculator.splitLargeBlock` (the `_capacity` parameter of the
source is unused there and omitted; the split always measures with the
`TextMeasurer`'s own capacity).  `characterStart` starts at `0`. -/
def splitLargeBlock (totalCharacters linesPerPage chapterId blockId : ℤ)
    (text : List Char) (startPageId : ℤ) : List PCPage :=
  splitLargeBlockLoop totalCharacters linesPerPage chapterId blockId
    text.length text 0 startPageId

/-- Loop state of `PaginationCalculator.calculatePages` inside one chapter:
the accumulated `this.pages`, the running `pageId`, and the per-chapter
`currentPageContent` / `currentPageCharacterCount` / `currentBlockStartIndex`
locals. -/
structure ChState where
  pages : List PCPage
  pageId : ℤ
  currentPageContent : List (List Char)
  currentPageCharacterCount : ℤ
  currentBlockStartIndex : ℕ
deriving DecidableEq, Repr

/-- Out-of-range array reads never happen in the embedded loops; this value
is only a formal default for `List.getD`. -/
def defaultBlock : Block := { id := 0, btype := .conversation, text := [] }

/-- The page pushed by `calculatePages` when the open page overflows or at
chapter end. -/
def chapterFlushPage (chapter : Chapter) (s : ChState) : PCPage :=
  { id := s.pageId,
    position := { chapterId := chapter.id,
                  blockId := (chapter.blocks.getD s.currentBlockStartIndex
                    defaultBlock).id,
                  characterStart := 0,
                  characterEnd := s.currentPageCharacterCount },
    content := s.currentPageContent,
    totalCharacters := s.currentPageCharacterCount }

/-- The body of the `for (let blockIndex = 0; ...)` loop of
`PaginationCalculator.calculatePages`.  A block whose
text joined with the open page stays within `effectiveCapacity` is appended;
otherwise the open page (if any) is flushed, the block opens a new page, and
a block longer than `effectiveCapacity` on its own is handed to
`splitLargeBlock` (after which `pageId` is resynchronised to
`this.pages.length + 1` and the open page is cleared). -/
def chapterBlockStep (totalCharacters linesPerPage effectiveCapacity : ℤ)
    (chapter : Chapter) (blockIndex : ℕ) (block : Block) (s : ChState) :
    ChState :=
  let tentativeLen := (s.currentPageContent.map List.length).sum +
    block.text.length
  if (tentativeLen : ℤ) ≤ effectiveCapacity then
    { s with
      currentPageContent := s.currentPageContent ++ [block.text],
      currentPageCharacterCount :=
        s.currentPageCharacterCount + block.text.length }
  else
    let s1 := if s.currentPageContent ≠ [] then
        { s with pages := s.pages ++ [chapterFlushPage chapter s],
                 pageId := s.pageId + 1 }
      else s
    let s2 := { s1 with
      currentPageContent := [block.text],
      currentPageCharacterCount := (block.text.length : ℤ),
      currentBlockStartIndex := blockIndex }
    if (block.text.length : ℤ) > effectiveCapacity then
      let split := splitLargeBlock totalCharacters linesPerPage chapter.id
        block.id block.text s2.pageId
      { s2 with
        pages := s2.pages ++ split,
        pageId := ((s2.pages ++ split).length : ℤ) + 1,
        currentPageContent := [],
        currentPageCharacterCount := 0 }
    else s2

/-- The block loop of `calculatePages`, iterating `chapterBlockStep`. -/
def chapterBlocksGo (totalCharacters linesPerPage effectiveCapacity : ℤ)
    (chapter : Chapter) : ℕ → List Block → ChState → ChState
  | _, [], s => s
  | blockIndex, block :: rest, s =>
    chapterBlocksGo totalCharacters linesPerPage effectiveCapacity chapter
      (blockIndex + 1) rest
      (chapterBlockStep totalCharacters linesPerPage effectiveCapacity
        chapter blockIndex block s)

/-- One chapter of `PaginationCalculator.calculatePages`: run the block loop
from a fresh open page, then flush any remaining open page. -/
def processChapterPC (totalCharacters linesPerPage effectiveCapacity : ℤ)
    (chapter : Chapter) (acc : List PCPage × ℤ) : List PCPage × ℤ :=
  let s := chapterBlocksGo totalCharacters linesPerPage effectiveCapacity
    chapter 0 chapter.blocks
    { pages := acc.1, pageId := acc.2, currentPageContent := [],
      currentPageCharacterCount := 0, currentBlockStartIndex := 0 }
  if s.currentPageContent ≠ [] then
    (s.pages ++ [chapterFlushPage chapter s], s.pageId + 1)
  else (s.pages, s.pageId)

/-- The `effectiveCapacity` computation at the top of
`PaginationCalculator.calculatePages`: an invalid container size (capacity
`0`) is silently replaced by the default `1000`. -/
def effectiveCapacityOf (capacity : PageCapacity) : ℤ :=
  if capacity.totalCharacters > 0 then capacity.totalCharacters else 1000

/-- `PaginationCalculator.calculatePages` (invoked by the constructor):
geometry parameters as in `getPageCapacity`, result `this.pages`. -/
def calculatePages (containerWidth containerHeight fontSize lineHeight
    characterWidth : ℚ) (book : BookContent) : List PCPage :=
  let capacity := getPageCapacity containerWidth containerHeight fontSize
    lineHeight characterWidth
  let effectiveCapacity := effectiveCapacityOf capacity
  (book.chapters.foldl
    (fun acc chapter => processChapterPC capacity.totalCharacters
      capacity.linesPerPage effectiveCapacity chapter acc)
    ([], 1)).1

/-- The scanning loop of `PaginationCalculator.findPageByPosition`, carrying
the running index.  Falling off the end returns `0` (the source's
`return 0`), not the running index. -/
def findPageByPositionGo (chapterId blockId characterPosition : ℤ) :
    List PCPage → ℕ → ℕ
  | [], _ => 0
  | p :: rest, i =>
    if p.position.chapterId = chapterId ∧ p.position.blockId = blockId ∧
        p.position.characterStart ≤ characterPosition ∧
        characterPosition < p.position.characterEnd
    then i
    else findPageByPositionGo chapterId blockId characterPosition rest (i + 1)

/-- `PaginationCalculator.findPageByPosition` (the source's
`characterPosition` defaults to `0`; it is passed explicitly here). -/
def findPageByPosition (pages : List PCPage)
    (chapterId blockId characterPosition : ℤ) : ℕ :=
  findPageByPositionGo chapterId blockId characterPosition pages 0

/-! ## Fitting search (`findFittingText` of `src/unnamed/part_005`;
the `while (left <= right)` binary search is identical in
`src/components/vertical-text-paginator.tsx` and, over a measurement record,
in `DOMPaginationCalculator.findOptimalBreakPoint` of
`src/lib/utils/content-position-finder.ts`) -/

/-- The `while (left <= right)` binary search loop over prefix lengths.
`fits k` is `measureTextWidth(baseContent + separator + text.substring(0, k))
<= maxWidth`; `result` holds the length of the best fitting prefix found so
far (the source keeps the prefix string itself; every assignment stores
`text.substring(0, mid)`, so the length determines it).  `left`/`right` are
JS numbers, modelled as `ℤ` (`right` reaches `-1` when nothing fits);
`mid = Math.floor((left + right) / 2)` where `left + right ≥ 0` in every
reachable state, so `ℤ` floor division agrees.  One unit of fuel per
iteration; the interval shrinks at every iteration, so fuel `len + 2` always
suffices for the initial interval `[0, len]`. -/
def bsLoop (fits : ℕ → Bool) : ℕ → ℤ → ℤ → ℕ → ℕ
  | 0, _, _, result => result
  | fuel + 1, left, right, result =>
    if left ≤ right then
      let mid := (left + right) / 2
      if fits mid.toNat then bsLoop fits fuel (mid + 1) right mid.toNat
      else bsLoop fits fuel left (mid - 1) result
    else result

/-- The binary-search phase of `findFittingText`: the maximal fitting prefix
length of a text of length `len`, starting from `left = 0`,
`right = text.length`, `result = ''`. -/
def findFittingLen (fits : ℕ → Bool) (len : ℕ) : ℕ :=
  bsLoop fits (len + 2) 0 len 0

/-- The leading-prohibited characters tested by the kinsoku post-processing
of `findFittingText` in `src/unnamed/part_005`:
`。 、 」 』 ） 】`. -/
def kinsokuChar (c : Char) : Bool :=
  c = '。' || c = '、' || c = '」' || c = '』' || c = '）' || c = '】'

/-- `findFittingText(text, maxWidth, baseContent, separator)` from
`src/unnamed/part_005`: binary search for the longest prefix of `text` such
that `baseContent + separator + prefix` measures within `maxWidth`, then the
kinsoku adjustment — if the search stopped strictly inside the text and the
next character is leading-prohibited, send the last fitted character to the
next page too (`result.slice(0, -1)`), but only when at least one character
would remain (`result.length > 1`). -/
def findFittingText (measure : List Char → ℚ) (maxWidth : ℚ)
    (text baseContent separator : List Char) : List Char :=
  let resultLen := findFittingLen
    (fun k => decide (measure (baseContent ++ separator ++ text.take k) ≤ maxWidth))
    text.length
  let result := text.take resultLen
  if result.length > 0 ∧ result.length < text.length then
    if kinsokuChar (text.getD result.length 'x') then
      if result.length > 1 then result.dropLast else result
    else result
  else result

/-! ## Page metadata (`src/lib/utils/content-position-finder.ts`) -/

/-- The `metadata` record of `PageData`. -/
structure PageMetadata where
  chapterId : ℤ
  blockIds : List ℤ
  startBlockId : Option ℤ
  endBlockId : Option ℤ
  endBlockCharacterOffset : Option ℤ
  characterRange : Option (ℤ × ℤ)
deriving DecidableEq, Repr

/-- `PageData` from `src/lib/utils/content-position-finder.ts`.  Optional JS
fields are `Option`s (`none` = absent/`undefined`).  The nondeterministic
`id` string is not modelled. -/
structure PageData where
  content : List Char
  chapterTitle : Option (List Char)
  isChapterStart : Option Bool
  isChapterEnd : Option Bool
  metadata : Option PageMetadata
deriving DecidableEq, Repr

/-- `enrichPageWithMetadata`: attaches metadata to a page;
`startBlockId`/`endBlockId` are `blockIds[0]` / `blockIds[length-1]`
(`undefined` on an empty list), `characterRange` is
`{start: 0, end: content.length - 1}`. -/
def enrichPageWithMetadata (pageContent : List Char)
    (chapterTitle : Option (List Char)) (chapterId : ℤ) (blockIds : List ℤ)
    (isChapterStart isChapterEnd : Bool)
    (endBlockCharacterOffset : Option ℤ) : PageData :=
  { content := pageContent,
    chapterTitle := chapterTitle,
    isChapterStart := some isChapterStart,
    isChapterEnd := some isChapterEnd,
    metadata := some
      { chapterId := chapterId,
        blockIds := blockIds,
        startBlockId := blockIds.head?,
        endBlockId := blockIds.getLast?,
        endBlockCharacterOffset := endBlockCharacterOffset,
        characterRange := some (0, (pageContent.length : ℤ) - 1) } }

/-- `FindResult` from `src/lib/utils/content-position-finder.ts`. -/
structure FindResult where
  pageIndex : ℕ
  page : PageData
  exactMatch : Bool
deriving DecidableEq, Repr

/-- Membership test `page.metadata?.blockIds?.includes(targetBlockId)` (a
missing `metadata` is falsy). -/
def pageHasBlockId (page : PageData) (targetBlockId : ℤ) : Bool :=
  match page.metadata with
  | none => false
  | some m => targetBlockId ∈ m.blockIds

/-- The indexed scan of `findPageByBlockId`. -/
def findPageByBlockIdGo (targetBlockId : ℤ) :
    List PageData → ℕ → Option FindResult
  | [], _ => none
  | page :: rest, i =>
    if pageHasBlockId page targetBlockId then
      some { pageIndex := i, page := page, exactMatch := true }
    else findPageByBlockIdGo targetBlockId rest (i + 1)

/-- `findPageByBlockId`: first page whose `metadata.blockIds` contains
`targetBlockId`, with its index; `null` if none. -/
def findPageByBlockId (pages : List PageData) (targetBlockId : ℤ) :
    Option FindResult :=
  findPageByBlockIdGo targetBlockId pages 0

/-- `getContentPositionFromPage(page, characterOffset = 0)`.  The guard
`!page.metadata?.chapterId || !page.metadata?.blockIds?.[0]` returns `null`
when `metadata` is absent, when `chapterId` is `0` (JS falsiness!), or when
`blockIds[0]` is missing or `0`.  `blockId` is
`metadata.startBlockId || metadata.blockIds[0]` — again JS `||`, so a
`startBlockId` of `0` falls back to `blockIds[0]`.  The offset is clamped by
`Math.max(0, Math.min(characterOffset, page.content.length - 1))`. -/
def getContentPositionFromPage (page : PageData) (characterOffset : ℤ) :
    Option ContentPosition :=
  match page.metadata with
  | none => none
  | some m =>
    if m.chapterId = 0 then none
    else
      match m.blockIds.head? with
      | none => none
      | some h =>
        if h = 0 then none
        else
          some { chapterId := m.chapterId,
                 blockId := match m.startBlockId with
                   | some b => if b ≠ 0 then b else h
                   | none => h,
                 characterOffset :=
                   max 0 (min characterOffset ((page.content.length : ℤ) - 1)) }

/-- `distance < bestDistance` where `bestDistance` starts at
`Number.MAX_VALUE` (modelled as `none`, larger than every distance). -/
def ltBest (distance : ℤ) : Option ℤ → Bool
  | none => true
  | some best => distance < best

/-- The nested `for` loops of `findNearestPageToPosition` over the
chapter-matching pages: track the best `(page, index)` and the best distance
`|blockId − position.blockId|` over every `blockId` of every page (pages
without `metadata.blockIds` are skipped by the `continue`). -/
def nearestScan (target : ℤ) :
    List (PageData × ℕ) → (PageData × ℕ) → Option ℤ → (PageData × ℕ)
  | [], best, _ => best
  | (page, index) :: rest, best, bestDistance =>
    match page.metadata with
    | none => nearestScan target rest best bestDistance
    | some m =>
      let (best', bestDistance') := m.blockIds.foldl
        (fun (acc : (PageData × ℕ) × Option ℤ) blockId =>
          let distance := |blockId - target|
          if ltBest distance acc.2 then ((page, index), some distance) else acc)
        (best, bestDistance)
      nearestScan target rest best' bestDistance'

/-- The chapter-filtered, index-carrying page list
`pages.map((page, index) => ...).filter(...)` of
`findNearestPageToPosition`. -/
def chapterMatches (pages : List PageData) (chapterId : ℤ) :
    List (PageData × ℕ) :=
  (pages.enum.map (fun p => (p.2, p.1))).filter
    (fun p => match p.1.metadata with
      | none => false
      | some m => m.chapterId = chapterId)

/-- `findNearestPageToPosition`: exact match on `blockId` first; otherwise
the nearest-`blockId` page among those of the same chapter (`null` when the
chapter has no pages). -/
def findNearestPageToPosition (pages : List PageData)
    (position : ContentPosition) : Option FindResult :=
  match findPageByBlockId pages position.blockId with
  | some exactMatch => some exactMatch
  | none =>
    match chapterMatches pages position.chapterId with
    | [] => none
    | first :: _ =>
      let bestMatch := nearestScan position.blockId
        (chapterMatches pages position.chapterId) first none
      some { pageIndex := bestMatch.2, page := bestMatch.1,
             exactMatch := false }

/-! ## The pagination hook (`calculatePagination` of `src/unnamed/part_005`,
the `useVerticalTextPagination` hook; `src/components/vertical-text-paginator.tsx`
implements the same loop without metadata and without kinsoku) -/

/-- `BookData.metadata` from `src/types/book.ts`. -/
structure BookMetadata where
  id : ℤ
  title : List Char
  author : List Char
deriving DecidableEq, Repr

/-- `BookData` from `src/types/book.ts` (`chapters` is `content.chapters`;
the block `type: string` is modelled by `BlockType`, the union the hook
casts it to). -/
structure BookData where
  metadata : BookMetadata
  chapters : List Chapter
deriving DecidableEq, Repr

/-- A structured `TextBlock` of the hook.  The source encodes the ids in the
strings `chapter-${id}` / `block-${chapterId}-${blockId}` and re-parses them
with `parseInt`; the integers are carried directly (the string round trip is
exact for the non-negative integer ids the book format uses). -/
inductive SBlock where
  | chapterMarker (chapterId : ℤ) (chapterTitle : List Char)
  | textBlock (chapterId blockId : ℤ) (btype : BlockType) (text : List Char)
deriving DecidableEq, Repr

/-- `getStructuredBlocks`: one `chapter` marker block per chapter, followed
by that chapter's text blocks, in book order. -/
def getStructuredBlocks (book : BookData) : List SBlock :=
  (book.chapters.map (fun ch =>
    SBlock.chapterMarker ch.id ch.title ::
      ch.blocks.map (fun b => SBlock.textBlock ch.id b.id b.btype b.text))).flatten

/-- `fittingPortion.replace(/　/g, '').length`: the length after deleting
every full-width space. -/
def lengthWithoutIndent (s : List Char) : ℕ :=
  (s.filter (fun c => c ≠ '　')).length

/-- `blockTexts.has(blockId)` on the insertion-ordered JS `Map`. -/
def mapHas (m : List (ℤ × List Char)) (k : ℤ) : Bool :=
  m.any (fun p => p.1 = k)

/-- `blockTexts.set(blockId, text)`: overwrite in place, or append. -/
def mapSet (m : List (ℤ × List Char)) (k : ℤ) (v : List Char) :
    List (ℤ × List Char) :=
  if mapHas m k then m.map (fun p => if p.1 = k then (k, v) else p)
  else m ++ [(k, v)]

/-- `blockTexts.get(blockId)`. -/
def mapGet (m : List (ℤ × List Char)) (k : ℤ) : Option (List Char) :=
  (m.find? (fun p => p.1 = k)).map (fun p => p.2)

/-- What `calculatedPages.push({id, content, chapterTitle, ...})` actually
stores: the enriched page's `content`, `chapterTitle` and `metadata`;
`isChapterStart` is never copied (so it is `undefined` on every stored
page), and `isChapterEnd` is copied only by the chapter-boundary flush
(`keepChapterEnd`). -/
def pagePush (pd : PageData) (keepChapterEnd : Bool) : PageData :=
  { content := pd.content,
    chapterTitle := pd.chapterTitle,
    isChapterStart := none,
    isChapterEnd := if keepChapterEnd then pd.isChapterEnd else none,
    metadata := pd.metadata }

/-- The mutable locals of `calculatePagination`. -/
structure CalcState where
  calculatedPages : List PageData
  currentPageContent : List Char
  currentChapterTitle : Option (List Char)
  currentChapterId : ℤ
  currentBlockIds : List ℤ
  lastBlockCharacterOffset : ℤ
  blockTexts : List (ℤ × List Char)
  currentBlockProcessedLength : ℤ
deriving Repr

/-- The `while (remainingContent.length > 0)` loop inside the
`fittingPortion.length > 0` overflow branch: keep carving fitting portions
off the remaining block text onto fresh pages; when the whole rest fits it
becomes the open page (`currentPageContent = remainingContent; break`), and
when `findFittingText` returns nothing the loop just breaks (the remaining
text is dropped — the open page stays empty).  Returns (pages pushed, final
`currentPageContent`, final `currentBlockProcessedLength`).  Fuel: one per
iteration; every iteration consumes at least one character, so the call
site's `remainingContent.length` is always enough. -/
def calcInnerA (measure : List Char → ℚ) (maxW : ℚ)
    (title : Option (List Char)) (chapterId blockId : ℤ) :
    ℕ → List Char → ℤ → List PageData × List Char × ℤ
  | _, [], procLen => ([], [], procLen)
  | 0, _ :: _, procLen => ([], [], procLen)
  | fuel + 1, c :: cs, procLen =>
    let remaining := c :: cs
    if measure remaining ≤ maxW then ([], remaining, procLen)
    else
      let next := findFittingText measure maxW remaining [] []
      if next = [] then ([], [], procLen)
      else
        let procLen' := procLen + (lengthWithoutIndent next : ℤ)
        let pd := enrichPageWithMetadata next title chapterId [blockId]
          false false (some procLen')
        let r := calcInnerA measure maxW title chapterId blockId fuel
          (remaining.drop next.length) procLen'
        (pagePush pd false :: r.1, r.2.1, r.2.2)

/-- The `while (remainingBlockContent.length > 0)` loop inside the
`fittingPortion.length === 0` overflow branch, together with the
`if (remainingBlockContent.length > 0) currentPageContent = ...` that
follows it: carve fitting portions onto fresh pages; on a zero-length
fitting result the loop breaks and the leftover becomes the open page.
Returns (pages pushed, final `currentPageContent`, final
`currentBlockProcessedLength`). -/
def calcInnerB (measure : List Char → ℚ) (maxW : ℚ)
    (title : Option (List Char)) (chapterId blockId : ℤ) :
    ℕ → List Char → ℤ → List PageData × List Char × ℤ
  | _, [], procLen => ([], [], procLen)
  | 0, c :: cs, procLen => ([], c :: cs, procLen)
  | fuel + 1, c :: cs, procLen =>
    let remaining := c :: cs
    let fittingText := findFittingText measure maxW remaining [] []
    if fittingText = [] then ([], remaining, procLen)
    else
      let procLen' := procLen + (lengthWithoutIndent fittingText : ℤ)
      let pd := enrichPageWithMetadata fittingText title chapterId [blockId]
        false false (some procLen')
      let r := calcInnerB measure maxW title chapterId blockId fuel
        (remaining.drop fittingText.length) procLen'
      (pagePush pd false :: r.1, r.2.1, r.2.2)

/-- The `block.type === 'chapter'` branch of `calculatePagination`: flush
the open page (if any) as a chapter-end page, then install the new chapter
title and id (`parseInt(...) || currentChapterId + 1` — a chapter id of `0`
is falsy and falls back to `currentChapterId + 1`) and reset
`lastBlockCharacterOffset`. -/
def calcChapterStep (chapterId : ℤ) (chapterTitle : List Char)
    (s : CalcState) : CalcState :=
  let s1 := if s.currentPageContent ≠ [] then
      { s with
        calculatedPages := s.calculatedPages ++
          [pagePush (enrichPageWithMetadata s.currentPageContent
            s.currentChapterTitle s.currentChapterId s.currentBlockIds
            false true (some s.lastBlockCharacterOffset)) true],
        currentPageContent := [],
        currentBlockIds := [] }
    else s
  { s1 with
    currentChapterTitle := some chapterTitle,
    currentChapterId := if chapterId ≠ 0 then chapterId
      else s.currentChapterId + 1,
    lastBlockCharacterOffset := 0 }

/-- The text-block branch of `calculatePagination`.  `blockContent` gets the
full-width-space indent for paragraphs, `separator` is `'\n'` iff the open
page is non-empty; the block id is tracked in `currentBlockIds` (and the
block's raw text in the `blockTexts` map) before the overflow test.  On
overflow with a non-empty open page, either a fitting portion closes the
open page and the rest is split by the `calcInnerA` loop, or (nothing fits
after the open page) the open page is flushed as-is and the whole block is
placed / split on fresh pages by the `calcInnerB` loop. -/
def calcTextBlockStep (measure : List Char → ℚ) (maxW : ℚ) (blockId : ℤ)
    (btype : BlockType) (text : List Char) (s : CalcState) : CalcState :=
  let blockTexts1 := if mapHas s.blockTexts blockId then s.blockTexts
    else mapSet s.blockTexts blockId text
  let blockContent := if btype = BlockType.paragraph then '　' :: text
    else text
  let separator : List Char := if s.currentPageContent ≠ [] then ['\n']
    else []
  let testContent := s.currentPageContent ++ separator ++ blockContent
  let width := measure testContent
  let isNewBlock := blockId ∉ s.currentBlockIds
  let blockIds2 := if isNewBlock then s.currentBlockIds ++ [blockId]
    else s.currentBlockIds
  let blockTexts2 := if isNewBlock then mapSet blockTexts1 blockId text
    else blockTexts1
  let procLen2 := if isNewBlock then 0 else s.currentBlockProcessedLength
  if width > maxW ∧ s.currentPageContent ≠ [] then
    let fittingPortion := findFittingText measure maxW blockContent
      s.currentPageContent separator
    if fittingPortion ≠ [] then
      let pageWithFittingPortion :=
        s.currentPageContent ++ separator ++ fittingPortion
      let procLen3 := procLen2 + (lengthWithoutIndent fittingPortion : ℤ)
      let pd := enrichPageWithMetadata pageWithFittingPortion
        s.currentChapterTitle s.currentChapterId blockIds2 false false
        (some procLen3)
      let remainingContent := blockContent.drop fittingPortion.length
      let r := calcInnerA measure maxW s.currentChapterTitle
        s.currentChapterId blockId remainingContent.length remainingContent
        procLen3
      { s with
        calculatedPages := s.calculatedPages ++ pagePush pd false :: r.1,
        currentPageContent := r.2.1,
        currentBlockIds := [blockId],
        blockTexts := blockTexts2,
        currentBlockProcessedLength := r.2.2 }
    else
      let originalBlockText := (mapGet blockTexts2 blockId).getD []
      let procLen3 := (originalBlockText.length : ℤ)
      let pd := enrichPageWithMetadata s.currentPageContent
        s.currentChapterTitle s.currentChapterId blockIds2 false false
        (some procLen3)
      if measure blockContent ≤ maxW then
        { s with
          calculatedPages := s.calculatedPages ++ [pagePush pd false],
          currentPageContent := blockContent,
          currentBlockIds := [blockId],
          blockTexts := blockTexts2,
          currentBlockProcessedLength := procLen3 }
      else
        let r := calcInnerB measure maxW s.currentChapterTitle
          s.currentChapterId blockId blockContent.length blockContent procLen3
        { s with
          calculatedPages := s.calculatedPages ++ pagePush pd false :: r.1,
          currentPageContent := r.2.1,
          currentBlockIds := [blockId],
          blockTexts := blockTexts2,
          currentBlockProcessedLength := r.2.2 }
  else
    { s with
      currentPageContent := testContent,
      currentBlockIds := blockIds2,
      blockTexts := blockTexts2,
      currentBlockProcessedLength := procLen2,
      lastBlockCharacterOffset := ((mapGet blockTexts2 blockId).getD []).length }

/-- One iteration of the main `for` loop of `calculatePagination`. -/
def calcStep (measure : List Char → ℚ) (maxW : ℚ) (s : CalcState)
    (b : SBlock) : CalcState :=
  match b with
  | SBlock.chapterMarker cid title => calcChapterStep cid title s
  | SBlock.textBlock _ bid btype text =>
    calcTextBlockStep measure maxW bid btype text s

/-- The initial state of `calculatePagination`'s locals. -/
def initialCalcState : CalcState :=
  { calculatedPages := [], currentPageContent := [],
    currentChapterTitle := none, currentChapterId := 1,
    currentBlockIds := [], lastBlockCharacterOffset := 0, blockTexts := [],
    currentBlockProcessedLength := 0 }

/-- `calculatePagination` of `src/unnamed/part_005`.  `measure` is
`measureTextWidth` (the `scrollWidth` of the reusable hidden measurement
`div`) and `maxW` is `actualMaxWidth` (the measured display-area width);
both are abstract here.  An empty structured-block list throws
(`書籍データがありません`), caught and surfaced as the hook's `error` state —
modelled as `Except.error`.  Otherwise the block loop runs and a final
non-empty open page is flushed. -/
def calculatePagination (measure : List Char → ℚ) (maxW : ℚ)
    (book : BookData) : Except (List Char) (List PageData) :=
  let structuredBlocks := getStructuredBlocks book
  if structuredBlocks = [] then Except.error "書籍データがありません".toList
  else
    let sFinal := structuredBlocks.foldl (calcStep measure maxW)
      initialCalcState
    if sFinal.currentPageContent ≠ [] then
      Except.ok (sFinal.calculatedPages ++
        [pagePush (enrichPageWithMetadata sFinal.currentPageContent
          sFinal.currentChapterTitle sFinal.currentChapterId
          sFinal.currentBlockIds false false
          (some sFinal.lastBlockCharacterOffset)) false])
    else Except.ok sFinal.calculatedPages

/-- Character-count measurement used to instantiate the abstract oracle in
concrete checks: every character is one unit wide. -/
def unitWidth (l : List Char) : ℚ := (l.length : ℚ)

/-- The matching condition of `PaginationCalculator.findPageByPosition`:
same chapter and block, and `characterStart ≤ characterPosition <
characterEnd`. -/
def positionMatches (chapterId blockId characterPosition : ℤ)
    (p : PCPage) : Bool :=
  decide (p.position.chapterId = chapterId ∧ p.position.blockId = blockId ∧
    p.position.characterStart ≤ characterPosition ∧
    characterPosition < p.position.characterEnd)

/-- One-block book used in concrete checks of `calculatePages`. -/
def exBookPC : BookContent :=
  { id := 1, title := "t".toList, author := "a".toList,
    chapters :=
      [{ id := 1, title := "c1".toList,
         blocks :=
           [{ id := 1, btype := BlockType.conversation,
              text := "ab".toList }] }] }

/-- One-chapter, one-block book in the hook's `BookData` shape. -/
def exBookHook : BookData :=
  { metadata := { id := 1, title := "t".toList, author := "a".toList },
    chapters :=
      [{ id := 1, title := "c1".toList,
         blocks :=
           [{ id := 1, btype := BlockType.conversation,
              text := "ab".toList }] }] }

/-- A page whose metadata carries `startBlockId = 0` (a legitimate block id)
while `blockIds[0] = 3`: JS `||` treats the `0` as absent. -/
def exPageC8 : PageData :=
  { content := "ab".toList, chapterTitle := none, isChapterStart := none,
    isChapterEnd := none,
    metadata := some
      { chapterId := 1, blockIds := [3], startBlockId := some 0,
        endBlockId := some 3, endBlockCharacterOffset := none,
        characterRange := some (0, 1) } }

/-- The C7 counterexample book: chapter 1 with a 2-character block (id 1)
and a 4-character block (id 2); with one-unit characters and width budget 2
the second block is split across pages 1 and 2 (and the overflow handler
had already recorded block 2 in page 0's `blockIds`). -/
def exBookC7 : BookData :=
  { metadata := { id := 1, title := "t".toList, author := "a".toList },
    chapters :=
      [{ id := 1, title := "c1".toList,
         blocks :=
           [{ id := 1, btype := BlockType.conversation,
              text := "ab".toList },
            { id := 2, btype := BlockType.conversation,
              text := "cdef".toList }] }] }

/-- The page list the hook computes for `exBookC7` at width budget 2. -/
def c7pages : List PageData :=
  (calculatePagination unitWidth 2 exBookC7).toOption.getD []

/-- Erase the injected typography characters — the full-width indent space
and the newline block separator — used to state coverage "modulo injected
indentation markers". -/
def scrub (l : List Char) : List Char :=
  l.filter (fun c => decide (c ≠ '　' ∧ c ≠ '\n'))

/-- The linearized text of a book: every block's text, in reading order. -/
def linearizedText (book : BookData) : List Char :=
  (book.chapters.map
    (fun ch => (ch.blocks.map (fun b => b.text)).flatten)).flatten

/-- The text a structured block contributes to the book (chapter markers
contribute none). -/
def sblockText : SBlock → List Char
  | SBlock.chapterMarker _ _ => []
  | SBlock.textBlock _ _ _ text => text

/-- All characters held by a pagination state: closed pages in order, then
the open page. -/
def pagesConcat (s : CalcState) : List Char :=
  (s.calculatedPages.map (fun p => p.content)).flatten ++ s.currentPageContent

/-- Per-character widths where `Z` is wider than the whole budget: a
monotone measurement under which a fresh page fits no characters at all
once a `Z` leads the remainder. -/
def heavyWidth (l : List Char) : ℚ :=
  (((l.map (fun c => if c = 'Z' then (100 : ℤ) else 1)).sum : ℤ) : ℚ)

/-- Book whose second block ends in the over-wide character `Z`. -/
def dropBook : BookData :=
  { metadata := { id := 1, title := "t".toList, author := "a".toList },
    chapters :=
      [{ id := 1, title := "c1".toList,
         blocks :=
           [{ id := 1, btype := BlockType.conversation,
              text := "b".toList },
            { id := 2, btype := BlockType.conversation,
              text := "aZ".toList }] }] }

theorem fitTextToPage_append (totalCharacters linesPerPage : ℤ)
    (text : List Char) :
    (fitTextToPage totalCharacters linesPerPage text).1 ++
      (fitTextToPage totalCharacters linesPerPage text).2 = text := by
  unfold fitTextToPage
  split
  · simp
  · split
    · simp
    · simp [List.take_append_drop]

theorem fitTextToPage_snd_length_lt (totalCharacters linesPerPage : ℤ)
    (text : List Char)
    (hf : (fitTextToPage totalCharacters linesPerPage text).1 ≠ []) :
    (fitTextToPage totalCharacters linesPerPage text).2.length < text.length := by
  have h := fitTextToPage_append totalCharacters linesPerPage text
  have h1 : 0 < (fitTextToPage totalCharacters linesPerPage text).1.length :=
    List.length_pos.mpr hf
  have h2 : (fitTextToPage totalCharacters linesPerPage text).1.length +
      (fitTextToPage totalCharacters linesPerPage text).2.length = text.length := by
    rw [← List.length_append, h]
  omega

/-! ## Correctness of the binary search -/

/-- Loop invariant proof for `bsLoop` under a monotone fitting predicate:
with `M` the greatest fitting length `≤ len`, every reachable loop state
satisfies `left ≤ M + 1 ≤ right + 1`, `left - 1 ≤ result ≤ M`, and the loop
returns `M`. -/
theorem bsLoop_spec (fits : ℕ → Bool) (len : ℕ)
    (Hmono : ∀ i j : ℕ, i ≤ j → j ≤ len → fits j = true → fits i = true)
    (H0 : fits 0 = true) :
    ∀ (fuel : ℕ) (left right : ℤ) (result : ℕ),
      0 ≤ left →
      left ≤ (Nat.findGreatest (fun k => fits k = true) len : ℤ) + 1 →
      (Nat.findGreatest (fun k => fits k = true) len : ℤ) ≤ right →
      right ≤ (len : ℤ) →
      (left : ℤ) - 1 ≤ (result : ℤ) →
      result ≤ Nat.findGreatest (fun k => fits k = true) len →
      (right + 1 - left).toNat < fuel →
      bsLoop fits fuel left right result =
        Nat.findGreatest (fun k => fits k = true) len := by
  set M := Nat.findGreatest (fun k => fits k = true) len with hM
  have hMle : M ≤ len := Nat.findGreatest_le len
  have hfitsM : fits M = true :=
    Nat.findGreatest_spec (P := fun k => fits k = true) (Nat.zero_le len) H0
  intro fuel
  induction fuel with
  | zero => intro left right result _ _ _ _ _ _ hfuel; omega
  | succ fuel ih =>
    intro left right result h0 hlM hMr hrlen hres1 hres2 hfuel
    rw [bsLoop]
    by_cases hlr : left ≤ right
    · rw [if_pos hlr]
      have hmid1 : left ≤ (left + right) / 2 := by omega
      have hmid2 : (left + right) / 2 ≤ right := by omega
      have hmidnat : (((left + right) / 2).toNat : ℤ) = (left + right) / 2 := by
        omega
      by_cases hfit : fits ((left + right) / 2).toNat = true
      · rw [if_pos hfit]
        have hmidM : ((left + right) / 2).toNat ≤ M :=
          Nat.le_findGreatest (by omega) hfit
        exact ih ((left + right) / 2 + 1) right ((left + right) / 2).toNat
          (by omega) (by omega) hMr hrlen (by omega) hmidM (by omega)
      · rw [if_neg hfit]
        have hmidM : M < ((left + right) / 2).toNat := by
          by_contra hcon
          exact hfit (Hmono ((left + right) / 2).toNat M (by omega) hMle hfitsM)
        exact ih left ((left + right) / 2 - 1) result h0 hlM (by omega)
          (by omega) hres1 hres2 (by omega)
    · rw [if_neg hlr]
      omega

/-- The binary-search phase of the fitting search computes the greatest
fitting prefix length, provided the fitting predicate is monotone and the
empty prefix fits. -/
theorem findFittingLen_eq_findGreatest (fits : ℕ → Bool) (len : ℕ)
    (Hmono : ∀ i j : ℕ, i ≤ j → j ≤ len → fits j = true → fits i = true)
    (H0 : fits 0 = true) :
    findFittingLen fits len = Nat.findGreatest (fun k => fits k = true) len := by
  have hMle : Nat.findGreatest (fun k => fits k = true) len ≤ len :=
    Nat.findGreatest_le len
  exact bsLoop_spec fits len Hmono H0 (len + 2) 0 len 0 (by omega)
    (by omega) (by omega) (by omega) (by omega) (by omega) (by omega)

/-- C3: for every candidate text, base page content, and separator, under
the precondition that the measured width of `base + separator + prefix` is
monotonically non-decreasing in the prefix length (and given that the base
and separator alone fit, so that a fitting prefix exists), the fitting
search's binary search over prefix lengths in `[0, len(text)]` returns —
before any kinsoku adjustment — the maximum-length prefix whose measurement
does not overflow the page width; every strictly longer prefix overflows. -/
theorem C3_binary_search_max_prefix
    (measure : List Char → ℚ) (maxWidth : ℚ)
    (text baseContent separator : List Char)
    (Hmono : ∀ i j : ℕ, i ≤ j → j ≤ text.length →
      measure (baseContent ++ separator ++ text.take i) ≤
        measure (baseContent ++ separator ++ text.take j))
    (H0 : measure (baseContent ++ separator) ≤ maxWidth) :
    measure (baseContent ++ separator ++
        text.take (findFittingLen
          (fun k => decide
            (measure (baseContent ++ separator ++ text.take k) ≤ maxWidth))
          text.length)) ≤ maxWidth ∧
    findFittingLen
        (fun k => decide
          (measure (baseContent ++ separator ++ text.take k) ≤ maxWidth))
        text.length ≤ text.length ∧
    ∀ k : ℕ,
      findFittingLen
        (fun k => decide
          (measure (baseContent ++ separator ++ text.take k) ≤ maxWidth))
        text.length < k → k ≤ text.length →
      maxWidth < measure (baseContent ++ separator ++ text.take k) := by
  set fits : ℕ → Bool :=
    fun k => decide (measure (baseContent ++ separator ++ text.take k) ≤ maxWidth)
    with hfits
  have hfits0 : fits 0 = true := by
    simp only [hfits, decide_eq_true_eq, List.take_zero, List.append_nil]
    exact H0
  have hmono' : ∀ i j : ℕ, i ≤ j → j ≤ text.length →
      fits j = true → fits i = true := by
    intro i j hij hj hfj
    simp only [hfits, decide_eq_true_eq] at hfj ⊢
    exact le_trans (Hmono i j hij hj) hfj
  have heq := findFittingLen_eq_findGreatest fits text.length hmono' hfits0
  have hspec : fits (Nat.findGreatest (fun k => fits k = true) text.length)
      = true :=
    Nat.findGreatest_spec (P := fun k => fits k = true) (Nat.zero_le _) hfits0
  refine ⟨?_, ?_, ?_⟩
  · have := hspec
    rw [← heq] at this
    simpa [hfits] using this
  · rw [heq]; exact Nat.findGreatest_le text.length
  · intro k hk hklen
    rw [heq] at hk
    have := Nat.findGreatest_is_greatest (P := fun k => fits k = true) hk hklen
    simp only [hfits, decide_eq_true_eq] at this
    exact lt_of_not_le this

theorem unitWidth_mono (s t : List Char) : unitWidth s ≤ unitWidth (s ++ t) := by
  simp only [unitWidth, List.length_append]
  exact_mod_cast Nat.le_add_right _ _

theorem unitWidth_append_take_mono (b t : List Char) (i j : ℕ) (hij : i ≤ j) :
    unitWidth (b ++ t.take i) ≤ unitWidth (b ++ t.take j) := by
  simp only [unitWidth, List.length_append, List.length_take]
  have h : min i t.length ≤ min j t.length := by omega
  exact_mod_cast Nat.add_le_add_left h _

/-- Witness for `C3_binary_search_max_prefix`: with one-unit-wide characters,
a page already holding `"ab"` plus a newline separator and a budget of `5`,
the search over `"abcdefgh"` stops at exactly `2` more characters. -/
theorem C3_binary_search_max_prefix_witness :
    unitWidth ("ab".toList ++ "\n".toList ++
        "abcdefgh".toList.take (findFittingLen
          (fun k => decide
            (unitWidth ("ab".toList ++ "\n".toList ++
              "abcdefgh".toList.take k) ≤ (5 : ℚ)))
          "abcdefgh".toList.length)) ≤ (5 : ℚ) ∧
    findFittingLen
        (fun k => decide
          (unitWidth ("ab".toList ++ "\n".toList ++
            "abcdefgh".toList.take k) ≤ (5 : ℚ)))
        "abcdefgh".toList.length ≤ "abcdefgh".toList.length ∧
    ∀ k : ℕ,
      findFittingLen
        (fun k => decide
          (unitWidth ("ab".toList ++ "\n".toList ++
            "abcdefgh".toList.take k) ≤ (5 : ℚ)))
        "abcdefgh".toList.length < k → k ≤ "abcdefgh".toList.length →
      (5 : ℚ) < unitWidth ("ab".toList ++ "\n".toList ++
        "abcdefgh".toList.take k) :=
  C3_binary_search_max_prefix unitWidth 5 "abcdefgh".toList "ab".toList
    "\n".toList
    (fun i j hij _ =>
      unitWidth_append_take_mono ("ab".toList ++ "\n".toList)
        "abcdefgh".toList i j hij)
    (by decide)

/-- C4: when the binary-search break point `b` lands strictly inside the
text and the character immediately after it is leading-prohibited
(`。、」』）】`), `findFittingText` shrinks the break point (sending the last
fitted character to the next page along with the prohibited character) —
unless that would leave zero characters on the current page (`b = 1`), in
which case the adjustment is skipped and the break point is returned
unchanged; the returned page fragment is never empty. -/
theorem C4_kinsoku_adjustment
    (measure : List Char → ℚ) (maxWidth : ℚ)
    (text baseContent separator : List Char) (b : ℕ)
    (hb : b = findFittingLen
      (fun k => decide
        (measure (baseContent ++ separator ++ text.take k) ≤ maxWidth))
      text.length)
    (h1 : 0 < b) (h2 : b < text.length)
    (hk : kinsokuChar (text.getD b 'x') = true) :
    findFittingText measure maxWidth text baseContent separator =
      text.take (if 1 < b then b - 1 else b) ∧
    findFittingText measure maxWidth text baseContent separator ≠ [] := by
  have htext : text ≠ [] := by
    intro h
    rw [h] at h2
    simp at h2
  have hlen : (text.take b).length = b := by
    simp only [List.length_take]
    omega
  have hmain : findFittingText measure maxWidth text baseContent separator =
      text.take (if 1 < b then b - 1 else b) := by
    unfold findFittingText
    rw [← hb]
    simp only [hlen, hk, if_true]
    rw [if_pos ⟨h1, h2⟩]
    by_cases h3 : 1 < b
    · rw [if_pos h3, if_pos h3]
      rw [List.dropLast_eq_take, List.take_take, List.length_take]
      congr 1
      omega
    · rw [if_neg h3, if_neg h3]
  refine ⟨hmain, ?_⟩
  rw [hmain]
  simp only [ne_eq, List.take_eq_nil_iff, not_or]
  constructor
  · by_cases h3 : 1 < b <;> simp [h3] <;> omega
  · exact htext

/-- Witness for `C4_kinsoku_adjustment`: with one-unit-wide characters and a
budget of `3`, the search over `"abc。def"` stops after `"abc"`, the next
character `。` is leading-prohibited, so the returned fragment is `"ab"` —
the `c` is sent to the next page along with the `。`. -/
theorem C4_kinsoku_adjustment_witness :
    findFittingText unitWidth 3 "abc。def".toList [] [] =
      "abc。def".toList.take (if 1 < (3 : ℕ) then 3 - 1 else 3) ∧
    findFittingText unitWidth 3 "abc。def".toList [] [] ≠ [] :=
  C4_kinsoku_adjustment unitWidth 3 "abc。def".toList [] [] 3
    (by decide) (by decide) (by decide) (by decide)

/-- The backwards punctuation scan never returns `0` when it starts from a
positive `cutPoint`: it yields either the initial `cutPoint` or some
`i + 1` with `i > 0`. -/
theorem lastGoodCutGo_pos (text : List Char) (cutPoint : ℕ)
    (hc : 0 < cutPoint) : ∀ i, 0 < lastGoodCutGo text cutPoint i := by
  intro i
  induction i with
  | zero => simpa [lastGoodCutGo] using hc
  | succ i ih =>
    rw [lastGoodCutGo]
    split
    · split
      · omega
      · exact ih
    · exact hc

/-- C9: `TextMeasurer.fitTextToPage` (with the capacity record the method
reads from `this.getPageCapacity()`) always splits its input exactly:
`fittedText ++ remainingText = text`; when the page capacity is non-positive
or the text is empty the fitted part is empty and the remainder is the whole
input; and when the capacity is positive and the text non-empty at least one
character is consumed. -/
theorem C9_fitTextToPage_split
    (containerWidth containerHeight fontSize lineHeight characterWidth : ℚ)
    (cap : PageCapacity)
    (hcap : cap = getPageCapacity containerWidth containerHeight fontSize
      lineHeight characterWidth)
    (text : List Char) :
    (fitTextToPage cap.totalCharacters cap.linesPerPage text).1 ++
      (fitTextToPage cap.totalCharacters cap.linesPerPage text).2 = text ∧
    (cap.totalCharacters ≤ 0 ∨ text = [] →
      fitTextToPage cap.totalCharacters cap.linesPerPage text = ([], text)) ∧
    (0 < cap.totalCharacters → text ≠ [] →
      (fitTextToPage cap.totalCharacters cap.linesPerPage text).1 ≠ []) := by
  refine ⟨fitTextToPage_append _ _ _, ?_, ?_⟩
  · intro h
    unfold fitTextToPage
    rcases h with h | h
    · rw [if_pos (Or.inr (Or.inl h))]
    · rw [if_pos (Or.inl h)]
  · intro htotal htext
    have hlpp : 0 < cap.linesPerPage := by
      unfold getPageCapacity at hcap
      split at hcap
      · rw [hcap] at htotal
        simp at htotal
      · rw [hcap] at htotal ⊢
        simp only at htotal ⊢
        by_contra hle
        push_neg at hle
        have h0 : (0 : ℤ) ≤ max 0 ⌊containerHeight / (fontSize * lineHeight)⌋ :=
          le_max_left 0 _
        have hz : max 0 ⌊containerHeight / (fontSize * lineHeight)⌋ = 0 := by
          omega
        rw [hz, mul_zero] at htotal
        exact absurd htotal (by omega)
    unfold fitTextToPage
    rw [if_neg (by
      push_neg
      exact ⟨htext, by omega, by omega⟩)]
    split
    · exact htext
    · have hsafe : 0 <
          (max 1 ⌊(cap.totalCharacters : ℚ) * (4 / 5)⌋).toNat := by
        have : (1 : ℤ) ≤ max 1 ⌊(cap.totalCharacters : ℚ) * (4 / 5)⌋ :=
          le_max_left 1 _
        omega
      have hcut : 0 < min
          (max 1 ⌊(cap.totalCharacters : ℚ) * (4 / 5)⌋).toNat text.length := by
        have : 0 < text.length := List.length_pos.mpr htext
        omega
      have hlgc := lastGoodCutGo_pos text _ hcut
      simp only [ne_eq, List.take_eq_nil_iff, not_or]
      constructor
      · split
        · omega
        · omega
      · exact htext

/-- Witness for `C9_fitTextToPage_split`: a 100×100 surface with 10-pt
characters, line height 2 and measured character width 10 has capacity
50 > 0, and `"abc"` is consumed whole. -/
theorem C9_fitTextToPage_split_witness :
    (fitTextToPage (getPageCapacity 100 100 10 2 10).totalCharacters
        (getPageCapacity 100 100 10 2 10).linesPerPage "abc".toList).1 ++
      (fitTextToPage (getPageCapacity 100 100 10 2 10).totalCharacters
        (getPageCapacity 100 100 10 2 10).linesPerPage "abc".toList).2 =
      "abc".toList ∧
    ((getPageCapacity 100 100 10 2 10).totalCharacters ≤ 0 ∨
        "abc".toList = [] →
      fitTextToPage (getPageCapacity 100 100 10 2 10).totalCharacters
        (getPageCapacity 100 100 10 2 10).linesPerPage "abc".toList =
        ([], "abc".toList)) ∧
    (0 < (getPageCapacity 100 100 10 2 10).totalCharacters →
      "abc".toList ≠ [] →
      (fitTextToPage (getPageCapacity 100 100 10 2 10).totalCharacters
        (getPageCapacity 100 100 10 2 10).linesPerPage "abc".toList).1 ≠ []) :=
  C9_fitTextToPage_split 100 100 10 2 10 (getPageCapacity 100 100 10 2 10)
    rfl "abc".toList

/-- Every iteration of the `splitLargeBlock` loop consumes at least one
character, so any fuel of at least `text.length` yields the same page
list — the loop terminates within `text.length` iterations. -/
theorem splitLargeBlockLoop_fuel (totalCharacters linesPerPage chapterId
    blockId : ℤ) :
    ∀ (fuel1 : ℕ) (fuel2 : ℕ) (text : List Char) (characterStart pageId : ℤ),
      text.length ≤ fuel1 → text.length ≤ fuel2 →
      splitLargeBlockLoop totalCharacters linesPerPage chapterId blockId
        fuel1 text characterStart pageId =
      splitLargeBlockLoop totalCharacters linesPerPage chapterId blockId
        fuel2 text characterStart pageId := by
  intro fuel1
  induction fuel1 with
  | zero =>
    intro fuel2 text characterStart pageId h1 _
    have : text = [] := by
      cases text with
      | nil => rfl
      | cons c cs => simp at h1
    subst this
    cases fuel2 <;> simp [splitLargeBlockLoop]
  | succ fuel1 ih =>
    intro fuel2 text characterStart pageId h1 h2
    cases text with
    | nil => cases fuel2 <;> simp [splitLargeBlockLoop]
    | cons c cs =>
      cases fuel2 with
      | zero => simp at h2
      | succ fuel2 =>
        simp only [splitLargeBlockLoop]
        by_cases hr : (fitTextToPage totalCharacters linesPerPage (c :: cs)).1 = []
        · rw [if_pos hr, if_pos hr]
          have hlen : ((c :: cs).drop 1).length ≤ fuel1 := by
            simp at h1 ⊢
            omega
          have hlen2 : ((c :: cs).drop 1).length ≤ fuel2 := by
            simp at h2 ⊢
            omega
          rw [ih fuel2 _ _ _ hlen hlen2]
        · rw [if_neg hr, if_neg hr]
          have hsl := fitTextToPage_snd_length_lt totalCharacters linesPerPage
            (c :: cs) hr
          simp only [List.length_cons] at h1 h2 hsl
          rw [ih fuel2 _ _ _ (by omega) (by omega)]

/-- The `splitLargeBlock` loop covers the block exactly: the concatenation
of the produced pages' contents is the whole remaining text, there are at
most `text.length` pages, and every page carries at least one character. -/
theorem splitLargeBlockLoop_spec (totalCharacters linesPerPage chapterId
    blockId : ℤ) :
    ∀ (fuel : ℕ) (text : List Char) (characterStart pageId : ℤ),
      text.length ≤ fuel →
      ((splitLargeBlockLoop totalCharacters linesPerPage chapterId blockId
          fuel text characterStart pageId).map
        (fun p => p.content.flatten)).flatten = text ∧
      (splitLargeBlockLoop totalCharacters linesPerPage chapterId blockId
        fuel text characterStart pageId).length ≤ text.length ∧
      ∀ p ∈ splitLargeBlockLoop totalCharacters linesPerPage chapterId
        blockId fuel text characterStart pageId, 1 ≤ p.totalCharacters := by
  intro fuel
  induction fuel with
  | zero =>
    intro text characterStart pageId h1
    have : text = [] := by
      cases text with
      | nil => rfl
      | cons c cs => simp at h1
    subst this
    simp [splitLargeBlockLoop]
  | succ fuel ih =>
    intro text characterStart pageId h1
    cases text with
    | nil => simp [splitLargeBlockLoop]
    | cons c cs =>
      simp only [splitLargeBlockLoop]
      by_cases hr : (fitTextToPage totalCharacters linesPerPage (c :: cs)).1 = []
      · rw [if_pos hr]
        have hlen : ((c :: cs).drop 1).length ≤ fuel := by
          simp at h1 ⊢
          omega
        obtain ⟨hc1, hc2, hc3⟩ := ih ((c :: cs).drop 1) (characterStart + 1)
          (pageId + 1) hlen
        refine ⟨?_, ?_, ?_⟩
        · simp only [List.map_cons, List.flatten_cons, hc1]
          simp
        · simp only [List.length_cons]
          simp at hc2 ⊢
          omega
        · intro p hp
          simp only [List.mem_cons] at hp
          rcases hp with hp | hp
          · rw [hp]
          · exact hc3 p hp
      · rw [if_neg hr]
        have hsl := fitTextToPage_snd_length_lt totalCharacters linesPerPage
          (c :: cs) hr
        have happ := fitTextToPage_append totalCharacters linesPerPage (c :: cs)
        have hlen : (fitTextToPage totalCharacters linesPerPage
            (c :: cs)).2.length ≤ fuel := by
          simp only [List.length_cons] at h1 hsl
          omega
        obtain ⟨hc1, hc2, hc3⟩ := ih
          (fitTextToPage totalCharacters linesPerPage (c :: cs)).2
          (characterStart +
            ((fitTextToPage totalCharacters linesPerPage (c :: cs)).1.length : ℤ))
          (pageId + 1) hlen
        refine ⟨?_, ?_, ?_⟩
        · simp only [List.map_cons, List.flatten_cons, hc1]
          simpa using happ
        · simp only [List.length_cons]
          have hsl' := fitTextToPage_snd_length_lt totalCharacters linesPerPage
            (c :: cs) hr
          simp only [List.length_cons] at hsl'
          omega
        · intro p hp
          simp only [List.mem_cons] at hp
          rcases hp with hp | hp
          · rw [hp]
            have h1pos : 0 <
                (fitTextToPage totalCharacters linesPerPage (c :: cs)).1.length :=
              List.length_pos.mpr hr
            simp only []
            omega
          · exact hc3 p hp

/-- C6: for every capacity configuration (hence every behaviour of the
fitting search `fitTextToPage`), the over-long-block splitting loop
terminates — any fuel of at least the block length yields the fixed point —
producing at most one page per character (each iteration consumes at least
one character, one forced character when the fitting search returns
nothing), and the page contents concatenated in order are exactly the whole
block text. -/
theorem C6_splitLargeBlock_termination_coverage
    (totalCharacters linesPerPage chapterId blockId : ℤ) (text : List Char)
    (startPageId : ℤ) (fuel : ℕ) (hfuel : text.length ≤ fuel) :
    splitLargeBlockLoop totalCharacters linesPerPage chapterId blockId fuel
        text 0 startPageId =
      splitLargeBlock totalCharacters linesPerPage chapterId blockId text
        startPageId ∧
    ((splitLargeBlock totalCharacters linesPerPage chapterId blockId text
        startPageId).map (fun p => p.content.flatten)).flatten = text ∧
    (splitLargeBlock totalCharacters linesPerPage chapterId blockId text
      startPageId).length ≤ text.length ∧
    ∀ p ∈ splitLargeBlock totalCharacters linesPerPage chapterId blockId
      text startPageId, 1 ≤ p.totalCharacters := by
  obtain ⟨h1, h2, h3⟩ := splitLargeBlockLoop_spec totalCharacters linesPerPage
    chapterId blockId text.length text 0 startPageId le_rfl
  exact ⟨splitLargeBlockLoop_fuel totalCharacters linesPerPage chapterId
    blockId fuel text.length text 0 startPageId hfuel le_rfl, h1, h2, h3⟩

/-- Witness for `C6_splitLargeBlock_termination_coverage`: capacity 10
(8 characters per page after the 80% safety margin), a 26-character block,
fuel 100. -/
theorem C6_splitLargeBlock_termination_coverage_witness :
    splitLargeBlockLoop 10 2 1 1 100 "abcdefghijklmnopqrstuvwxyz".toList 0 5 =
      splitLargeBlock 10 2 1 1 "abcdefghijklmnopqrstuvwxyz".toList 5 ∧
    ((splitLargeBlock 10 2 1 1 "abcdefghijklmnopqrstuvwxyz".toList 5).map
      (fun p => p.content.flatten)).flatten =
      "abcdefghijklmnopqrstuvwxyz".toList ∧
    (splitLargeBlock 10 2 1 1 "abcdefghijklmnopqrstuvwxyz".toList 5).length ≤
      "abcdefghijklmnopqrstuvwxyz".toList.length ∧
    ∀ p ∈ splitLargeBlock 10 2 1 1 "abcdefghijklmnopqrstuvwxyz".toList 5,
      1 ≤ p.totalCharacters :=
  C6_splitLargeBlock_termination_coverage 10 2 1 1
    "abcdefghijklmnopqrstuvwxyz".toList 5 100 (by decide)

theorem findPageByPositionGo_eq (chapterId blockId characterPosition : ℤ) :
    ∀ (pages : List PCPage) (i : ℕ),
      findPageByPositionGo chapterId blockId characterPosition pages i =
        if pages.any (positionMatches chapterId blockId characterPosition)
        then i + pages.findIdx (positionMatches chapterId blockId
          characterPosition)
        else 0 := by
  intro pages
  induction pages with
  | nil => intro i; simp [findPageByPositionGo]
  | cons p rest ih =>
    intro i
    rw [findPageByPositionGo]
    by_cases hp : p.position.chapterId = chapterId ∧
        p.position.blockId = blockId ∧
        p.position.characterStart ≤ characterPosition ∧
        characterPosition < p.position.characterEnd
    · rw [if_pos hp]
      have hb : positionMatches chapterId blockId characterPosition p = true :=
        decide_eq_true hp
      simp [List.any_cons, List.findIdx_cons, hb]
    · rw [if_neg hp]
      have hb : positionMatches chapterId blockId characterPosition p = false :=
        decide_eq_false hp
      rw [ih (i + 1)]
      simp only [List.any_cons, List.findIdx_cons, hb, Bool.false_or,
        Bool.cond_false]
      split
      · omega
      · rfl

/-- C10: `PaginationCalculator.findPageByPosition` returns the index of the
first page whose position matches (same chapter and block ids,
`characterStart ≤ characterPosition < characterEnd`), and returns `0` when
no page matches — so a failed lookup is indistinguishable from a match on
the first page. -/
theorem C10_findPageByPosition_first_match_or_zero
    (pages : List PCPage) (chapterId blockId characterPosition : ℤ) :
    (pages.any (positionMatches chapterId blockId characterPosition) = true →
      ∃ hlt : findPageByPosition pages chapterId blockId characterPosition <
          pages.length,
        positionMatches chapterId blockId characterPosition
          (pages.get ⟨findPageByPosition pages chapterId blockId
            characterPosition, hlt⟩) = true ∧
        ∀ (j : ℕ) (hj : j < pages.length),
          j < findPageByPosition pages chapterId blockId characterPosition →
          positionMatches chapterId blockId characterPosition
            (pages.get ⟨j, hj⟩) = false) ∧
    (pages.any (positionMatches chapterId blockId characterPosition) = false →
      findPageByPosition pages chapterId blockId characterPosition = 0) := by
  have heq := findPageByPositionGo_eq chapterId blockId characterPosition
    pages 0
  unfold findPageByPosition
  rw [heq]
  constructor
  · intro hany
    rw [if_pos hany]
    have hlt : pages.findIdx
        (positionMatches chapterId blockId characterPosition) < pages.length :=
      List.findIdx_lt_length_of_exists (by simpa using hany)
    refine ⟨by simpa using hlt, ?_, ?_⟩
    · simpa using List.findIdx_getElem (w := by simpa using hlt)
    · intro j hj hjlt
      exact List.not_of_lt_findIdx (by simpa using hjlt)
  · intro hany
    rw [if_neg (by simp [hany])]

/-- Witness for `C10_findPageByPosition_first_match_or_zero`: two pages of
chapter 1; the query `(1, 2, 1)` matches the second page only. -/
theorem C10_findPageByPosition_first_match_or_zero_witness :
    ([{ id := 1, position := ⟨1, 1, 0, 2⟩, content := [['a', 'b']],
        totalCharacters := 2 },
      { id := 2, position := ⟨1, 2, 0, 4⟩, content := [['c', 'd']],
        totalCharacters := 2 }] : List PCPage).any
        (positionMatches 1 2 1) = true ∧
    (∃ hlt : findPageByPosition
        [{ id := 1, position := ⟨1, 1, 0, 2⟩, content := [['a', 'b']],
           totalCharacters := 2 },
         { id := 2, position := ⟨1, 2, 0, 4⟩, content := [['c', 'd']],
           totalCharacters := 2 }] 1 2 1 < 2,
      positionMatches 1 2 1
        (([{ id := 1, position := ⟨1, 1, 0, 2⟩, content := [['a', 'b']],
             totalCharacters := 2 },
           { id := 2, position := ⟨1, 2, 0, 4⟩, content := [['c', 'd']],
             totalCharacters := 2 }] : List PCPage).get
          ⟨findPageByPosition
            [{ id := 1, position := ⟨1, 1, 0, 2⟩, content := [['a', 'b']],
               totalCharacters := 2 },
             { id := 2, position := ⟨1, 2, 0, 4⟩, content := [['c', 'd']],
               totalCharacters := 2 }] 1 2 1, hlt⟩) = true) :=
  ⟨by decide,
    (C10_findPageByPosition_first_match_or_zero
      [{ id := 1, position := ⟨1, 1, 0, 2⟩, content := [['a', 'b']],
         totalCharacters := 2 },
       { id := 2, position := ⟨1, 2, 0, 4⟩, content := [['c', 'd']],
         totalCharacters := 2 }] 1 2 1).1 (by decide) |>.imp
      (fun _ h => h.1)⟩

/-- A non-empty block always produces at least one page when split. -/
theorem splitLargeBlock_ne_nil (totalCharacters linesPerPage chapterId
    blockId : ℤ) (text : List Char) (hp : text ≠ []) (pageId : ℤ) :
    splitLargeBlock totalCharacters linesPerPage chapterId blockId text
      pageId ≠ [] := by
  cases text with
  | nil => exact absurd rfl hp
  | cons c cs =>
    simp only [splitLargeBlock, List.length_cons, splitLargeBlockLoop]
    split <;> simp

theorem chapterBlockStep_pages_mono (totalCharacters linesPerPage
    effectiveCapacity : ℤ) (chapter : Chapter) (blockIndex : ℕ)
    (block : Block) (s : ChState) :
    s.pages.length ≤ (chapterBlockStep totalCharacters linesPerPage
      effectiveCapacity chapter blockIndex block s).pages.length := by
  simp only [chapterBlockStep]
  split_ifs <;> simp [List.length_append]

/-- Processing one block from any state leaves either a strictly longer page
list or a non-empty open page (provided the effective capacity is
non-negative, so that a block routed to the splitter is non-empty). -/
theorem chapterBlockStep_progress (totalCharacters linesPerPage
    effectiveCapacity : ℤ) (he : 0 ≤ effectiveCapacity) (chapter : Chapter)
    (blockIndex : ℕ) (block : Block) (s : ChState) :
    s.pages.length < (chapterBlockStep totalCharacters linesPerPage
        effectiveCapacity chapter blockIndex block s).pages.length ∨
    (chapterBlockStep totalCharacters linesPerPage effectiveCapacity chapter
      blockIndex block s).currentPageContent ≠ [] := by
  simp only [chapterBlockStep]
  split_ifs with h1 h2 h3
  · right; simp
  · left
    simp [List.length_append]
  · left
    have hne : block.text ≠ [] := by
      intro hnil
      rw [hnil] at h2
      simp at h2
      omega
    have hsp := List.length_pos.mpr (splitLargeBlock_ne_nil totalCharacters
      linesPerPage chapter.id block.id block.text hne s.pageId)
    simp [List.length_append]
    omega
  · left
    simp [List.length_append]
  · right; simp

theorem chapterBlocksGo_pages_mono (totalCharacters linesPerPage
    effectiveCapacity : ℤ) (chapter : Chapter) :
    ∀ (blocks : List Block) (blockIndex : ℕ) (s : ChState),
      s.pages.length ≤ (chapterBlocksGo totalCharacters linesPerPage
        effectiveCapacity chapter blockIndex blocks s).pages.length := by
  intro blocks
  induction blocks with
  | nil => intro blockIndex s; simp [chapterBlocksGo]
  | cons block rest ih =>
    intro blockIndex s
    rw [chapterBlocksGo]
    exact le_trans (chapterBlockStep_pages_mono _ _ _ _ _ _ _)
      (ih (blockIndex + 1) _)

/-- A step that starts with a non-empty open page either keeps an open page
or flushes it, strictly growing the page list. -/
theorem chapterBlockStep_open (totalCharacters linesPerPage
    effectiveCapacity : ℤ) (chapter : Chapter) (blockIndex : ℕ)
    (block : Block) (s : ChState) (hs : s.currentPageContent ≠ []) :
    (chapterBlockStep totalCharacters linesPerPage effectiveCapacity chapter
      blockIndex block s).currentPageContent ≠ [] ∨
    s.pages.length + 1 ≤ (chapterBlockStep totalCharacters linesPerPage
      effectiveCapacity chapter blockIndex block s).pages.length := by
  simp only [chapterBlockStep]
  split_ifs with h1 h2
  · left; simp
  · right; simp [List.length_append]
  · right; simp [List.length_append]

/-- The grows-or-open invariant is preserved by the whole block loop. -/
theorem chapterBlocksGo_progress (totalCharacters linesPerPage
    effectiveCapacity : ℤ) (chapter : Chapter) :
    ∀ (blocks : List Block) (blockIndex : ℕ) (s : ChState) (n0 : ℕ),
      n0 ≤ s.pages.length →
      (n0 < s.pages.length ∨ s.currentPageContent ≠ []) →
      (n0 < (chapterBlocksGo totalCharacters linesPerPage effectiveCapacity
          chapter blockIndex blocks s).pages.length ∨
        (chapterBlocksGo totalCharacters linesPerPage effectiveCapacity
          chapter blockIndex blocks s).currentPageContent ≠ []) := by
  intro blocks
  induction blocks with
  | nil => intro blockIndex s n0 _ hP; simpa [chapterBlocksGo] using hP
  | cons block rest ih =>
    intro blockIndex s n0 hle hP
    rw [chapterBlocksGo]
    refine ih (blockIndex + 1) _ n0
      (le_trans hle (chapterBlockStep_pages_mono _ _ _ _ _ _ _)) ?_
    rcases hP with hP | hP
    · left
      exact lt_of_lt_of_le hP (chapterBlockStep_pages_mono _ _ _ _ _ _ _)
    · rcases chapterBlockStep_open totalCharacters linesPerPage
        effectiveCapacity chapter blockIndex block s hP with hQ | hQ
      · right; exact hQ
      · left; omega

theorem processChapterPC_pages_mono (totalCharacters linesPerPage
    effectiveCapacity : ℤ) (chapter : Chapter) (acc : List PCPage × ℤ) :
    acc.1.length ≤ (processChapterPC totalCharacters linesPerPage
      effectiveCapacity chapter acc).1.length := by
  have hmono := chapterBlocksGo_pages_mono totalCharacters linesPerPage
    effectiveCapacity chapter chapter.blocks 0
    { pages := acc.1, pageId := acc.2, currentPageContent := [],
      currentPageCharacterCount := 0, currentBlockStartIndex := 0 }
  simp only [processChapterPC]
  split <;> simp at hmono ⊢ <;> omega

/-- A chapter with at least one block contributes at least one page
(effective capacity non-negative). -/
theorem processChapterPC_pages_strict (totalCharacters linesPerPage
    effectiveCapacity : ℤ) (he : 0 ≤ effectiveCapacity) (chapter : Chapter)
    (hblocks : chapter.blocks ≠ []) (acc : List PCPage × ℤ) :
    acc.1.length < (processChapterPC totalCharacters linesPerPage
      effectiveCapacity chapter acc).1.length := by
  obtain ⟨block, rest, hbr⟩ := List.exists_cons_of_ne_nil hblocks
  set s0 : ChState :=
    { pages := acc.1, pageId := acc.2, currentPageContent := [],
      currentPageCharacterCount := 0, currentBlockStartIndex := 0 } with hs0
  have hrun : chapterBlocksGo totalCharacters linesPerPage effectiveCapacity
      chapter 0 chapter.blocks s0 =
      chapterBlocksGo totalCharacters linesPerPage effectiveCapacity chapter
        1 rest (chapterBlockStep totalCharacters linesPerPage
          effectiveCapacity chapter 0 block s0) := by
    rw [hbr, chapterBlocksGo]
  have hstep := chapterBlockStep_progress totalCharacters linesPerPage
    effectiveCapacity he chapter 0 block s0
  have hsle : s0.pages.length ≤ (chapterBlockStep totalCharacters
      linesPerPage effectiveCapacity chapter 0 block s0).pages.length :=
    chapterBlockStep_pages_mono _ _ _ _ _ _ _
  have hP := chapterBlocksGo_progress totalCharacters linesPerPage
    effectiveCapacity chapter rest 1
    (chapterBlockStep totalCharacters linesPerPage effectiveCapacity chapter
      0 block s0) s0.pages.length hsle hstep
  rw [← hrun] at hP
  have hge := chapterBlocksGo_pages_mono totalCharacters linesPerPage
    effectiveCapacity chapter chapter.blocks 0 s0
  have hacc : s0.pages.length = acc.1.length := rfl
  simp only [processChapterPC]
  rw [← hs0]
  split
  · dsimp only
    simp only [List.length_append, List.length_cons, List.length_nil]
    omega
  · rename_i hflush
    dsimp only
    rcases hP with hP | hP
    · omega
    · exact absurd hP (by simpa using hflush)

theorem calculatePages_foldl_mono (totalCharacters linesPerPage
    effectiveCapacity : ℤ) :
    ∀ (chapters : List Chapter) (acc : List PCPage × ℤ),
      acc.1.length ≤ ((chapters.foldl
        (fun acc chapter => processChapterPC totalCharacters linesPerPage
          effectiveCapacity chapter acc) acc)).1.length := by
  intro chapters
  induction chapters with
  | nil => intro acc; simp
  | cons chapter rest ih =>
    intro acc
    simp only [List.foldl_cons]
    exact le_trans (processChapterPC_pages_mono _ _ _ _ _) (ih _)

theorem calculatePages_foldl_strict (totalCharacters linesPerPage
    effectiveCapacity : ℤ) (he : 0 ≤ effectiveCapacity) :
    ∀ (chapters : List Chapter) (acc : List PCPage × ℤ),
      (∃ chapter ∈ chapters, chapter.blocks ≠ []) →
      acc.1.length < ((chapters.foldl
        (fun acc chapter => processChapterPC totalCharacters linesPerPage
          effectiveCapacity chapter acc) acc)).1.length := by
  intro chapters
  induction chapters with
  | nil => intro acc h; simp at h
  | cons chapter rest ih =>
    intro acc h
    simp only [List.foldl_cons]
    rcases h with ⟨w, hmem, hne⟩
    rcases List.mem_cons.mp hmem with heq | hmem2
    · subst heq
      exact lt_of_lt_of_le
        (processChapterPC_pages_strict _ _ _ he _ hne _)
        (calculatePages_foldl_mono _ _ _ rest _)
    · exact lt_of_le_of_lt (processChapterPC_pages_mono _ _ _ _ _)
        (ih _ ⟨w, hmem2, hne⟩)

/-- C5 (counterexample): with an invalid geometry (zero width), the
calculator does not fail — `getPageCapacity` reports capacity `0`, the
`effectiveCapacity` fallback silently substitutes the default `1000`, and
`calculatePages` returns an ordinary one-page list for a one-block book;
no error condition exists anywhere in the interface. -/
theorem C5_invalid_geometry_counterexample :
    effectiveCapacityOf (getPageCapacity 0 100 16 (8 / 5) 10) = 1000 ∧
    (getPageCapacity 0 100 16 (8 / 5) 10).totalCharacters = 0 ∧
    calculatePages 0 100 16 (8 / 5) 10 exBookPC =
      [{ id := 1,
         position :=
           { chapterId := 1, blockId := 1, characterStart := 0,
             characterEnd := 2 },
         content := [['a', 'b']], totalCharacters := 2 }] := by
  refine ⟨by decide, by decide, by decide⟩

/-- C5 (amended): when `PaginationCalculator` is constructed with invalid
geometry (non-positive width or height), `getPageCapacity` reports zero
capacity and `calculatePages`, instead of surfacing an error, silently
substitutes the default capacity `1000` and computes an ordinary page
list — non-empty whenever some chapter has a block. -/
theorem C5_invalid_geometry_silently_defaults
    (containerWidth containerHeight fontSize lineHeight characterWidth : ℚ)
    (book : BookContent)
    (hinvalid : containerWidth ≤ 0 ∨ containerHeight ≤ 0) :
    getPageCapacity containerWidth containerHeight fontSize lineHeight
      characterWidth =
      { charactersPerLine := 0, linesPerPage := 0, totalCharacters := 0 } ∧
    calculatePages containerWidth containerHeight fontSize lineHeight
      characterWidth book =
      (book.chapters.foldl
        (fun acc chapter => processChapterPC 0 0 1000 chapter acc)
        ([], 1)).1 ∧
    ((∃ chapter ∈ book.chapters, chapter.blocks ≠ []) →
      calculatePages containerWidth containerHeight fontSize lineHeight
        characterWidth book ≠ []) := by
  have hcap : getPageCapacity containerWidth containerHeight fontSize
      lineHeight characterWidth =
      { charactersPerLine := 0, linesPerPage := 0, totalCharacters := 0 } := by
    unfold getPageCapacity
    rw [if_pos hinvalid]
  have hpages : calculatePages containerWidth containerHeight fontSize
      lineHeight characterWidth book =
      (book.chapters.foldl
        (fun acc chapter => processChapterPC 0 0 1000 chapter acc)
        ([], 1)).1 := by
    unfold calculatePages
    rw [hcap]
    rfl
  refine ⟨hcap, hpages, ?_⟩
  intro hex
  rw [hpages]
  have hstrict := calculatePages_foldl_strict 0 0 1000 (by omega)
    book.chapters ([], 1) hex
  intro hnil
  rw [hnil] at hstrict
  simp at hstrict

/-- Witness for `C5_invalid_geometry_silently_defaults` at width `0` with a
one-block book. -/
theorem C5_invalid_geometry_silently_defaults_witness :
    getPageCapacity 0 100 16 (8 / 5) 10 =
      { charactersPerLine := 0, linesPerPage := 0, totalCharacters := 0 } ∧
    calculatePages 0 100 16 (8 / 5) 10 exBookPC =
      (exBookPC.chapters.foldl
        (fun acc chapter => processChapterPC 0 0 1000 chapter acc)
        ([], 1)).1 ∧
    ((∃ chapter ∈ exBookPC.chapters, chapter.blocks ≠ []) →
      calculatePages 0 100 16 (8 / 5) 10 exBookPC ≠ []) :=
  C5_invalid_geometry_silently_defaults 0 100 16 (8 / 5) 10 exBookPC
    (Or.inl le_rfl)

theorem calcInnerA_pages_isChapterStart (measure : List Char → ℚ) (maxW : ℚ)
    (title : Option (List Char)) (chapterId blockId : ℤ) :
    ∀ (fuel : ℕ) (rem : List Char) (procLen : ℤ),
      ∀ p ∈ (calcInnerA measure maxW title chapterId blockId fuel rem
        procLen).1, p.isChapterStart = none := by
  intro fuel
  induction fuel with
  | zero => intro rem procLen p hp; cases rem <;> simp [calcInnerA] at hp
  | succ fuel ih =>
    intro rem procLen p hp
    cases rem with
    | nil => simp [calcInnerA] at hp
    | cons c cs =>
      simp only [calcInnerA] at hp
      split at hp
      · simp at hp
      · split at hp
        · simp at hp
        · simp only [List.mem_cons] at hp
          rcases hp with hp | hp
          · rw [hp]; rfl
          · exact ih _ _ p hp

theorem calcInnerB_pages_isChapterStart (measure : List Char → ℚ) (maxW : ℚ)
    (title : Option (List Char)) (chapterId blockId : ℤ) :
    ∀ (fuel : ℕ) (rem : List Char) (procLen : ℤ),
      ∀ p ∈ (calcInnerB measure maxW title chapterId blockId fuel rem
        procLen).1, p.isChapterStart = none := by
  intro fuel
  induction fuel with
  | zero => intro rem procLen p hp; cases rem <;> simp [calcInnerB] at hp
  | succ fuel ih =>
    intro rem procLen p hp
    cases rem with
    | nil => simp [calcInnerB] at hp
    | cons c cs =>
      simp only [calcInnerB] at hp
      split at hp
      · simp at hp
      · simp only [List.mem_cons] at hp
        rcases hp with hp | hp
        · rw [hp]; rfl
        · exact ih _ _ p hp

set_option maxHeartbeats 2000000 in

/-- Every page appended by one step of the pagination loop goes through
`pagePush`, which never copies `isChapterStart`. -/
theorem calcStep_pages_isChapterStart (measure : List Char → ℚ) (maxW : ℚ)
    (s : CalcState) (b : SBlock) :
    ∀ p ∈ (calcStep measure maxW s b).calculatedPages,
      p ∈ s.calculatedPages ∨ p.isChapterStart = none := by
  intro p hp
  cases b with
  | chapterMarker cid title =>
    simp only [calcStep, calcChapterStep] at hp
    split at hp
    · simp only [List.mem_append, List.mem_singleton] at hp
      rcases hp with hp | hp
      · exact Or.inl hp
      · right; rw [hp]; rfl
    · exact Or.inl hp
  | textBlock cid bid btype text =>
    simp only [calcStep, calcTextBlockStep] at hp
    split_ifs at hp
    all_goals try exact Or.inl hp
    all_goals rcases List.mem_append.mp hp with hmem | hmem
    all_goals try exact Or.inl hmem
    all_goals
      simp only [List.mem_cons, List.mem_singleton, List.not_mem_nil,
        or_false] at hmem
    all_goals
      first
        | (right; rw [hmem]; rfl)
        | exact Or.inr (calcInnerA_pages_isChapterStart measure maxW
            _ _ _ _ _ _ p hmem)
        | exact Or.inr (calcInnerB_pages_isChapterStart measure maxW
            _ _ _ _ _ _ p hmem)
        | (rcases hmem with hmem | hmem <;>
            first
              | (right; rw [hmem]; rfl)
              | exact Or.inr (calcInnerA_pages_isChapterStart measure maxW
                  _ _ _ _ _ _ p hmem)
              | exact Or.inr (calcInnerB_pages_isChapterStart measure maxW
                  _ _ _ _ _ _ p hmem))

theorem calcFold_pages_isChapterStart (measure : List Char → ℚ) (maxW : ℚ) :
    ∀ (blocks : List SBlock) (s : CalcState),
      (∀ p ∈ s.calculatedPages, p.isChapterStart = none) →
      ∀ p ∈ (blocks.foldl (calcStep measure maxW) s).calculatedPages,
        p.isChapterStart = none := by
  intro blocks
  induction blocks with
  | nil => intro s hs p hp; exact hs p hp
  | cons b rest ih =>
    intro s hs p hp
    refine ih (calcStep measure maxW s b) ?_ p hp
    intro q hq
    rcases calcStep_pages_isChapterStart measure maxW s b q hq with hq' | hq'
    · exact hs q hq'
    · exact hq'

/-- C2 (amended): the pagination hook does close the open page at every
chapter marker — a chapter's content always starts on a fresh page — but it
never sets `isChapterStart`: every page in the result list has
`isChapterStart` absent (`none`), including the first page of each
chapter. -/
theorem C2_chapter_start_flag_never_set (measure : List Char → ℚ) (maxW : ℚ)
    (book : BookData) (pages : List PageData)
    (hok : calculatePagination measure maxW book = Except.ok pages) :
    (∀ p ∈ pages, p.isChapterStart = none) ∧
    (∀ (chapterId : ℤ) (chapterTitle : List Char) (s : CalcState),
      (calcStep measure maxW s
        (SBlock.chapterMarker chapterId chapterTitle)).currentPageContent
        = []) := by
  constructor
  · simp only [calculatePagination] at hok
    split at hok
    · exact absurd hok (by simp)
    · have hall := calcFold_pages_isChapterStart measure maxW
        (getStructuredBlocks book) initialCalcState
        (by intro p hp; simp [initialCalcState] at hp)
      split at hok
      · have hok' := Except.ok.inj hok
        intro p hp
        rw [← hok'] at hp
        simp only [List.mem_append, List.mem_singleton] at hp
        rcases hp with hp | hp
        · exact hall p hp
        · rw [hp]; rfl
      · have hok' := Except.ok.inj hok
        intro p hp
        rw [← hok'] at hp
        exact hall p hp
  · intro chapterId chapterTitle s
    simp only [calcStep, calcChapterStep]
    split
    · rfl
    · rename_i hcur
      simpa using hcur

/-- C2 (counterexample): a book whose only chapter has one block paginates
(with the one-unit-per-character measurer and budget 100) to a single page
carrying that block, and that page's `isChapterStart` is `none` — not
`true` as the claim requires for the first page of a chapter with at least
one block. -/
theorem C2_chapter_start_flag_counterexample :
    (calculatePagination unitWidth 100 exBookHook).toOption.map
      (fun ps => ps.map (fun p => p.isChapterStart)) = some [none] ∧
    exBookHook.chapters.map (fun ch => ch.blocks.length) = [1] := by
  refine ⟨by decide, by decide⟩

/-- Witness for `C2_chapter_start_flag_never_set` on the one-block book. -/
theorem C2_chapter_start_flag_never_set_witness :
    (∀ p ∈ (calculatePagination unitWidth 100 exBookHook).toOption.getD [],
      p.isChapterStart = none) ∧
    (∀ (chapterId : ℤ) (chapterTitle : List Char) (s : CalcState),
      (calcStep unitWidth 100 s
        (SBlock.chapterMarker chapterId chapterTitle)).currentPageContent
        = []) := by
  have h := C2_chapter_start_flag_never_set unitWidth 100 exBookHook
    ((calculatePagination unitWidth 100 exBookHook).toOption.getD [])
    (by rfl)
  exact h

/-- C8 (counterexample): on a page whose `metadata.startBlockId` is `0` and
whose `blockIds` is `[3]`, `getContentPositionFromPage` returns `blockId =
3`, not the `startBlockId = 0` the claim promises — the JS
`startBlockId || blockIds[0]` fallback fires on the falsy id `0`. -/
theorem C8_getContentPositionFromPage_counterexample :
    (getContentPositionFromPage exPageC8 0).map (fun pos => pos.blockId) =
      some 3 ∧
    exPageC8.metadata.map (fun m => m.startBlockId) = some (some 0) ∧
    (3 : ℤ) ≠ 0 := by
  refine ⟨by decide, by decide, by decide⟩

/-- C8 (amended): provided the page has metadata, its `chapterId` is
non-zero, and `blockIds[0]` exists and is non-zero (otherwise the function
returns `null`), `getContentPositionFromPage` returns the metadata's
`chapterId`, the `startBlockId` when present and non-zero — falling back to
`blockIds[0]` otherwise — and the requested offset clamped into
`[0, len(content) − 1]`. -/
theorem C8_getContentPositionFromPage_contract (page : PageData)
    (m : PageMetadata) (hm : page.metadata = some m) (hcid : m.chapterId ≠ 0)
    (h0 : ℤ) (hhead : m.blockIds.head? = some h0) (hh0 : h0 ≠ 0)
    (characterOffset : ℤ) :
    getContentPositionFromPage page characterOffset =
      some { chapterId := m.chapterId,
             blockId := match m.startBlockId with
               | some b => if b ≠ 0 then b else h0
               | none => h0,
             characterOffset :=
               max 0 (min characterOffset ((page.content.length : ℤ) - 1)) } := by
  simp only [getContentPositionFromPage, hm, hhead]
  rw [if_neg hcid, if_neg hh0]

/-- Witness for `C8_getContentPositionFromPage_contract` on `exPageC8` with
requested offset `5` (clamped to `1`). -/
theorem C8_getContentPositionFromPage_contract_witness :
    exPageC8.metadata = some
      { chapterId := 1, blockIds := [3], startBlockId := some 0,
        endBlockId := some 3, endBlockCharacterOffset := none,
        characterRange := some (0, 1) } ∧
    getContentPositionFromPage exPageC8 5 =
      some { chapterId := 1,
             blockId := match (some (0 : ℤ) : Option ℤ) with
               | some b => if b ≠ 0 then b else 3
               | none => 3,
             characterOffset :=
               max 0 (min 5 ((exPageC8.content.length : ℤ) - 1)) } :=
  ⟨rfl,
    C8_getContentPositionFromPage_contract exPageC8
      { chapterId := 1, blockIds := [3], startBlockId := some 0,
        endBlockId := some 3, endBlockCharacterOffset := none,
        characterRange := some (0, 1) }
      rfl (by decide) 3 rfl (by decide) 5⟩

theorem findPageByBlockIdGo_eq (target : ℤ) :
    ∀ (pages : List PageData) (i : ℕ),
      findPageByBlockIdGo target pages i =
        if h : pages.findIdx (fun p => pageHasBlockId p target) <
            pages.length then
          some
            { pageIndex :=
                i + pages.findIdx (fun p => pageHasBlockId p target),
              page := pages.get
                ⟨pages.findIdx (fun p => pageHasBlockId p target), h⟩,
              exactMatch := true }
        else none := by
  intro pages
  induction pages with
  | nil => intro i; simp [findPageByBlockIdGo]
  | cons p rest ih =>
    intro i
    rw [findPageByBlockIdGo]
    by_cases hp : pageHasBlockId p target = true
    · rw [if_pos hp]
      have hidx : (p :: rest).findIdx (fun q => pageHasBlockId q target) = 0 := by
        simp [List.findIdx_cons, hp]
      rw [dif_pos (by rw [hidx]; simp)]
      simp [hidx]
    · rw [if_neg hp, ih (i + 1)]
      have hidx : (p :: rest).findIdx (fun q => pageHasBlockId q target) =
          rest.findIdx (fun q => pageHasBlockId q target) + 1 := by
        simp only [List.findIdx_cons]
        rw [Bool.eq_false_iff.mpr hp]
        rfl
      by_cases hlt : rest.findIdx (fun q => pageHasBlockId q target) <
          rest.length
      · rw [dif_pos hlt, dif_pos (by rw [hidx]; simpa using hlt)]
        simp only [Option.some.injEq, FindResult.mk.injEq, hidx]
        exact ⟨by omega, by rfl, trivial⟩
      · rw [dif_neg hlt, dif_neg (by rw [hidx]; simpa using hlt)]

/-- C7 (amended): the round trip `findNearestPageToPosition
(getContentPositionFromPage p)` takes the exact-match path and returns the
index of the FIRST page whose `metadata.blockIds` contains the position's
`blockId` — an index at most that of `p`, equal to it only when no earlier
page shares the block (e.g. when the block is split across pages or a
page's `blockIds` were over-approximated). -/
theorem C7_round_trip_first_page_of_block (pages : List PageData) (i : ℕ)
    (hi : i < pages.length) (off : ℤ) (pos : ContentPosition)
    (_hpos : getContentPositionFromPage (pages.get ⟨i, hi⟩) off = some pos)
    (hself : pageHasBlockId (pages.get ⟨i, hi⟩) pos.blockId = true) :
    ∃ r : FindResult,
      findNearestPageToPosition pages pos = some r ∧
      r.exactMatch = true ∧
      r.pageIndex ≤ i ∧
      ∃ hr : r.pageIndex < pages.length,
        pageHasBlockId (pages.get ⟨r.pageIndex, hr⟩) pos.blockId = true ∧
        ∀ (j : ℕ) (hj : j < pages.length), j < r.pageIndex →
          pageHasBlockId (pages.get ⟨j, hj⟩) pos.blockId = false := by
  have hany : pages.findIdx (fun p => pageHasBlockId p pos.blockId) <
      pages.length := by
    apply List.findIdx_lt_length_of_exists
    exact ⟨pages.get ⟨i, hi⟩, List.get_mem pages i hi, hself⟩
  have hfind : findPageByBlockId pages pos.blockId =
      some
        { pageIndex :=
            pages.findIdx (fun p => pageHasBlockId p pos.blockId),
          page := pages.get
            ⟨pages.findIdx (fun p => pageHasBlockId p pos.blockId), hany⟩,
          exactMatch := true } := by
    unfold findPageByBlockId
    rw [findPageByBlockIdGo_eq, dif_pos hany]
    simp
  have hle : pages.findIdx (fun p => pageHasBlockId p pos.blockId) ≤ i := by
    by_contra hgt
    push_neg at hgt
    have h2 := List.not_of_lt_findIdx hgt
    rw [List.get_eq_getElem] at hself
    rw [hself] at h2
    exact absurd h2 (by simp)
  have hnear : findNearestPageToPosition pages pos =
      some
        { pageIndex :=
            pages.findIdx (fun p => pageHasBlockId p pos.blockId),
          page := pages.get
            ⟨pages.findIdx (fun p => pageHasBlockId p pos.blockId), hany⟩,
          exactMatch := true } := by
    unfold findNearestPageToPosition
    rw [hfind]
  refine ⟨_, hnear, rfl, hle, hany, ?_, ?_⟩
  · simpa using List.findIdx_getElem (w := hany)
  · intro j hj hjlt
    have h2 := List.not_of_lt_findIdx hjlt
    rw [List.get_eq_getElem]
    exact h2

/-- C7 (counterexample): in the pagination of `exBookC7` the round trip of
page 2 (content `"ef"`, the tail of split block 2) lands on page 0 via the
exact-match path — `findPageByBlockId` returns the first page whose
`blockIds` contains block 2, which is page 0 — so
`pageFor(positionFor(p)) ≠ index(p)`. -/
theorem C7_round_trip_counterexample :
    (calculatePagination unitWidth 2 exBookC7).toOption.map List.length =
      some 3 ∧
    ((c7pages[2]?).bind (fun p => getContentPositionFromPage p 0)).bind
      (fun pos => (findNearestPageToPosition c7pages pos).map
        (fun r => (r.pageIndex, r.exactMatch))) = some (0, true) ∧
    (0 : ℕ) ≠ 2 := by
  refine ⟨by rfl, by rfl, by decide⟩

/-- Witness for `C7_round_trip_first_page_of_block` at page 2 of
`c7pages`. -/
theorem C7_round_trip_first_page_of_block_witness :
    (2 : ℕ) < c7pages.length ∧
    ∃ r : FindResult,
      findNearestPageToPosition c7pages
        { chapterId := 1, blockId := 2, characterOffset := 0 } = some r ∧
      r.exactMatch = true ∧
      r.pageIndex ≤ 2 ∧
      ∃ hr : r.pageIndex < c7pages.length,
        pageHasBlockId (c7pages.get ⟨r.pageIndex, hr⟩) 2 = true ∧
        ∀ (j : ℕ) (hj : j < c7pages.length), j < r.pageIndex →
          pageHasBlockId (c7pages.get ⟨j, hj⟩) 2 = false := by
  have hlen : (2 : ℕ) < c7pages.length := by
    have : c7pages.length = 3 := by rfl
    omega
  refine ⟨hlen, ?_⟩
  have h := C7_round_trip_first_page_of_block c7pages 2 hlen 0
    { chapterId := 1, blockId := 2, characterOffset := 0 } (by rfl) (by rfl)
  exact h

theorem scrub_append (l1 l2 : List Char) :
    scrub (l1 ++ l2) = scrub l1 ++ scrub l2 := by
  simp [scrub]

/-- The binary search never reports more than the interval's upper end. -/
theorem bsLoop_le (fits : ℕ → Bool) (len : ℕ) :
    ∀ (fuel : ℕ) (left right : ℤ) (result : ℕ),
      result ≤ len → right ≤ (len : ℤ) →
      bsLoop fits fuel left right result ≤ len := by
  intro fuel
  induction fuel with
  | zero => intro left right result h1 _; simpa [bsLoop] using h1
  | succ fuel ih =>
    intro left right result h1 h2
    simp only [bsLoop]
    split
    · split
      · exact ih _ _ _ (by omega) h2
      · exact ih _ _ _ h1 (by omega)
    · exact h1

theorem findFittingLen_le (fits : ℕ → Bool) (len : ℕ) :
    findFittingLen fits len ≤ len :=
  bsLoop_le fits len (len + 2) 0 len 0 (by omega) le_rfl

/-- `findFittingText` always returns a prefix of its candidate text. -/
theorem findFittingText_take (measure : List Char → ℚ) (maxWidth : ℚ)
    (text baseContent separator : List Char) :
    ∃ n : ℕ, n ≤ text.length ∧
      findFittingText measure maxWidth text baseContent separator =
        text.take n := by
  have hrle := findFittingLen_le
    (fun k => decide
      (measure (baseContent ++ separator ++ text.take k) ≤ maxWidth))
    text.length
  simp only [findFittingText]
  split_ifs with h1 h2 h3
  · refine ⟨findFittingLen
      (fun k => decide
        (measure (baseContent ++ separator ++ text.take k) ≤ maxWidth))
      text.length - 1, by omega, ?_⟩
    rw [List.dropLast_eq_take, List.take_take, List.length_take]
    congr 1
    omega
  · exact ⟨_, hrle, rfl⟩
  · exact ⟨_, hrle, rfl⟩
  · exact ⟨_, hrle, rfl⟩

/-- Prefix-length monotonicity of a measure that is monotone under
appending. -/
theorem measure_take_mono (measure : List Char → ℚ)
    (Hmono : ∀ s t, measure s ≤ measure (s ++ t)) (l : List Char)
    (i j : ℕ) (hij : i ≤ j) :
    measure (l.take i) ≤ measure (l.take j) := by
  have h := Hmono ((l.take j).take i) ((l.take j).drop i)
  rw [List.take_append_drop] at h
  rw [List.take_take] at h
  rwa [min_eq_left hij] at h

/-- Under a monotone measure with every single character fitting, the
fitting search on a fresh page consumes at least one character of a
non-empty text. -/
theorem findFittingText_fresh_ne_nil (measure : List Char → ℚ) (maxW : ℚ)
    (Hmono : ∀ s t, measure s ≤ measure (s ++ t))
    (Hsingle : ∀ c : Char, measure [c] ≤ maxW)
    (text : List Char) (htext : text ≠ []) :
    findFittingText measure maxW text [] [] ≠ [] := by
  obtain ⟨c, cs, hc⟩ := List.exists_cons_of_ne_nil htext
  have hfits : ∀ k : ℕ,
      (fun k => decide (measure ([] ++ [] ++ text.take k) ≤ maxW)) k = true ↔
      measure (text.take k) ≤ maxW := by
    intro k
    simp
  have hmono' : ∀ i j : ℕ, i ≤ j → j ≤ text.length →
      (fun k => decide (measure ([] ++ [] ++ text.take k) ≤ maxW)) j = true →
      (fun k => decide (measure ([] ++ [] ++ text.take k) ≤ maxW)) i = true := by
    intro i j hij _ hj
    rw [hfits] at hj ⊢
    exact le_trans (measure_take_mono measure Hmono text i j hij) hj
  have h0 : (fun k => decide (measure ([] ++ [] ++ text.take k) ≤ maxW)) 0
      = true := by
    rw [hfits]
    simp only [List.take_zero]
    calc measure [] ≤ measure ([] ++ [c]) := Hmono [] [c]
    _ = measure [c] := by rw [List.nil_append]
    _ ≤ maxW := Hsingle c
  have h1 : (fun k => decide (measure ([] ++ [] ++ text.take k) ≤ maxW)) 1
      = true := by
    rw [hfits, hc]
    simpa using Hsingle c
  have hlen : 1 ≤ text.length := by rw [hc]; simp
  have heq := findFittingLen_eq_findGreatest
    (fun k => decide (measure ([] ++ [] ++ text.take k) ≤ maxW)) text.length
    hmono' h0
  have hge : 1 ≤ findFittingLen
      (fun k => decide (measure ([] ++ [] ++ text.take k) ≤ maxW))
      text.length := by
    rw [heq]
    exact Nat.le_findGreatest hlen h1
  simp only [findFittingText]
  split_ifs with hcond hk hgt
  · intro hnil
    rw [List.dropLast_eq_take] at hnil
    rcases List.take_eq_nil_iff.mp hnil with h | h
    · rcases hcond with ⟨hpos, hlt⟩
      simp only [List.length_take] at h hpos hlt hgt
      omega
    · rcases List.take_eq_nil_iff.mp h with h2 | h2
      · rcases hcond with ⟨hpos, _⟩
        simp only [List.length_take] at hpos
        omega
      · exact htext h2
  · intro hnil
    rcases List.take_eq_nil_iff.mp hnil with h | h
    · omega
    · exact htext h
  · intro hnil
    rcases List.take_eq_nil_iff.mp hnil with h | h
    · omega
    · exact htext h
  · intro hnil
    rcases List.take_eq_nil_iff.mp hnil with h | h
    · omega
    · exact htext h

theorem calcInnerA_conservation (measure : List Char → ℚ) (maxW : ℚ)
    (Hmono : ∀ s t, measure s ≤ measure (s ++ t))
    (Hsingle : ∀ c : Char, measure [c] ≤ maxW)
    (title : Option (List Char)) (chapterId blockId : ℤ) :
    ∀ (fuel : ℕ) (rem : List Char) (procLen : ℤ),
      rem.length ≤ fuel →
      ((calcInnerA measure maxW title chapterId blockId fuel rem
          procLen).1.map (fun p => p.content)).flatten ++
        (calcInnerA measure maxW title chapterId blockId fuel rem
          procLen).2.1 = rem := by
  intro fuel
  induction fuel with
  | zero =>
    intro rem procLen hfuel
    cases rem with
    | nil => simp [calcInnerA]
    | cons c cs => simp at hfuel
  | succ fuel ih =>
    intro rem procLen hfuel
    cases rem with
    | nil => simp [calcInnerA]
    | cons c cs =>
      simp only [calcInnerA]
      split_ifs with hfit hnil
      · simp
      · exact absurd hnil
          (findFittingText_fresh_ne_nil measure maxW Hmono Hsingle (c :: cs)
            (by simp))
      · obtain ⟨n, hn, htake⟩ := findFittingText_take measure maxW (c :: cs)
          [] []
        have hlen : (findFittingText measure maxW (c :: cs) [] []).length
            = n := by
          rw [htake, List.length_take]
          omega
        have hpos : 1 ≤ n := by
          rcases Nat.eq_zero_or_pos n with h0 | h0
          · rw [h0] at htake
            simp at htake
            exact absurd htake hnil
          · exact h0
        have hdrop : ((c :: cs).drop
            (findFittingText measure maxW (c :: cs) [] []).length).length
            ≤ fuel := by
          rw [hlen]
          simp only [List.length_drop, List.length_cons] at hfuel ⊢
          omega
        have hrec := ih ((c :: cs).drop
          (findFittingText measure maxW (c :: cs) [] []).length)
          (procLen + (lengthWithoutIndent
            (findFittingText measure maxW (c :: cs) [] []) : ℤ)) hdrop
        simp only [List.map_cons, List.flatten_cons, List.append_assoc]
        rw [hrec]
        show findFittingText measure maxW (c :: cs) [] [] ++ _ = _
        rw [hlen, htake, List.take_append_drop]

theorem calcInnerB_conservation (measure : List Char → ℚ) (maxW : ℚ)
    (title : Option (List Char)) (chapterId blockId : ℤ) :
    ∀ (fuel : ℕ) (rem : List Char) (procLen : ℤ),
      rem.length ≤ fuel →
      ((calcInnerB measure maxW title chapterId blockId fuel rem
          procLen).1.map (fun p => p.content)).flatten ++
        (calcInnerB measure maxW title chapterId blockId fuel rem
          procLen).2.1 = rem := by
  intro fuel
  induction fuel with
  | zero =>
    intro rem procLen hfuel
    cases rem with
    | nil => simp [calcInnerB]
    | cons c cs => simp at hfuel
  | succ fuel ih =>
    intro rem procLen hfuel
    cases rem with
    | nil => simp [calcInnerB]
    | cons c cs =>
      simp only [calcInnerB]
      split_ifs with hnil
      · simp
      · obtain ⟨n, hn, htake⟩ := findFittingText_take measure maxW (c :: cs)
          [] []
        have hlen : (findFittingText measure maxW (c :: cs) [] []).length
            = n := by
          rw [htake, List.length_take]
          omega
        have hpos : 1 ≤ n := by
          rcases Nat.eq_zero_or_pos n with h0 | h0
          · rw [h0] at htake
            simp at htake
            exact absurd htake hnil
          · exact h0
        have hdrop : ((c :: cs).drop
            (findFittingText measure maxW (c :: cs) [] []).length).length
            ≤ fuel := by
          rw [hlen]
          simp only [List.length_drop, List.length_cons] at hfuel ⊢
          omega
        have hrec := ih ((c :: cs).drop
          (findFittingText measure maxW (c :: cs) [] []).length)
          (procLen + (lengthWithoutIndent
            (findFittingText measure maxW (c :: cs) [] []) : ℤ)) hdrop
        simp only [List.map_cons, List.flatten_cons, List.append_assoc]
        rw [hrec]
        show findFittingText measure maxW (c :: cs) [] [] ++ _ = _
        rw [hlen, htake, List.take_append_drop]

theorem scrub_sep (P : Prop) [Decidable P] :
    scrub (if P then ['\n'] else []) = [] := by
  split <;> rfl

theorem scrub_blockContent (btype : BlockType) (text : List Char) :
    scrub (if btype = BlockType.paragraph then '　' :: text else text) =
      scrub text := by
  split <;> rfl

/-- One loop step preserves the book text up to injected markers: the
characters held by the state grow by exactly the block's text (scrubbed of
the indent and separator characters). -/
theorem calcStep_conservation (measure : List Char → ℚ) (maxW : ℚ)
    (Hmono : ∀ s t, measure s ≤ measure (s ++ t))
    (Hsingle : ∀ c : Char, measure [c] ≤ maxW)
    (s : CalcState) (b : SBlock) :
    scrub (pagesConcat (calcStep measure maxW s b)) =
      scrub (pagesConcat s) ++ scrub (sblockText b) := by
  cases b with
  | chapterMarker cid ctitle =>
    simp only [calcStep, calcChapterStep, sblockText]
    split_ifs <;>
      simp [pagesConcat, pagePush, enrichPageWithMetadata, scrub,
        List.filter_append]
  | textBlock cid bid btype text =>
    simp only [calcStep, calcTextBlockStep, sblockText]
    set bc := (if btype = BlockType.paragraph then '　' :: text else text)
      with hbc
    set sep := (if s.currentPageContent ≠ [] then ['\n']
      else ([] : List Char)) with hsep
    have hscrubsep : scrub sep = [] := by rw [hsep]; exact scrub_sep _
    have hscrubbc : scrub bc = scrub text := by
      rw [hbc]; exact scrub_blockContent btype text
    by_cases hw : measure (s.currentPageContent ++ sep ++ bc) > maxW ∧
        s.currentPageContent ≠ []
    · rw [if_pos hw]
      by_cases hfit : findFittingText measure maxW bc s.currentPageContent
          sep ≠ []
      · rw [if_pos hfit]
        obtain ⟨n, hn, htake⟩ := findFittingText_take measure maxW bc
          s.currentPageContent sep
        have hlenfit : (findFittingText measure maxW bc s.currentPageContent
            sep).length = n := by
          rw [htake, List.length_take]
          omega
        simp only [pagesConcat, pagePush, enrichPageWithMetadata,
          List.map_append, List.flatten_append, List.map_cons,
          List.flatten_cons, List.append_assoc]
        rw [calcInnerA_conservation measure maxW Hmono Hsingle _ _ _ _ _ _
          le_rfl]
        rw [hlenfit, htake, List.take_append_drop]
        simp only [scrub_append, hscrubsep, hscrubbc, List.append_nil]
        simp
      · rw [if_neg hfit]
        push_neg at hfit
        by_cases hbw : measure bc ≤ maxW
        · rw [if_pos hbw]
          simp only [pagesConcat, pagePush, enrichPageWithMetadata,
            List.map_append, List.flatten_append, List.map_cons,
            List.flatten_cons, List.append_assoc]
          simp only [scrub_append, hscrubbc]
          simp [scrub_append, scrub]
        · rw [if_neg hbw]
          simp only [pagesConcat, pagePush, enrichPageWithMetadata,
            List.map_append, List.flatten_append, List.map_cons,
            List.flatten_cons, List.append_assoc]
          rw [calcInnerB_conservation measure maxW _ _ _ _ _ _ le_rfl]
          simp only [scrub_append, hscrubbc]
          simp [scrub_append, scrub]
    · rw [if_neg hw]
      simp only [pagesConcat]
      simp only [scrub_append, hscrubsep, hscrubbc, List.append_assoc]
      simp [scrub_append, hscrubsep, hscrubbc, scrub]

theorem calcFold_conservation (measure : List Char → ℚ) (maxW : ℚ)
    (Hmono : ∀ s t, measure s ≤ measure (s ++ t))
    (Hsingle : ∀ c : Char, measure [c] ≤ maxW) :
    ∀ (blocks : List SBlock) (s : CalcState),
      scrub (pagesConcat (blocks.foldl (calcStep measure maxW) s)) =
        scrub (pagesConcat s) ++ scrub ((blocks.map sblockText).flatten) := by
  intro blocks
  induction blocks with
  | nil => intro s; simp [scrub]
  | cons b rest ih =>
    intro s
    simp only [List.foldl_cons, List.map_cons, List.flatten_cons]
    rw [ih, calcStep_conservation measure maxW Hmono Hsingle, scrub_append]
    simp [List.append_assoc]

/-- The texts of the structured block list are the linearized book text. -/
theorem structuredBlocks_texts (chs : List Chapter) :
    (((chs.map (fun ch => SBlock.chapterMarker ch.id ch.title ::
        ch.blocks.map
          (fun b => SBlock.textBlock ch.id b.id b.btype b.text))).flatten).map
      sblockText).flatten =
    (chs.map (fun ch => (ch.blocks.map (fun b => b.text)).flatten)).flatten := by
  induction chs with
  | nil => rfl
  | cons ch rest ih =>
    simp only [List.map_cons, List.flatten_cons, List.map_append,
      List.flatten_append, ih]
    congr 1
    simp only [List.map_cons, List.flatten_cons, sblockText, List.nil_append]
    rw [List.map_map]
    rfl

/-- C1 (amended): provided the measurement oracle is monotone under
appending text and every single character fits the width budget (so the
fitting search always makes progress on a fresh page), the concatenation of
all page contents produced by `calculatePagination`, in order, reproduces
exactly the linearized book text modulo the injected full-width indent
spaces and newline separators (both sides scrubbed of those two
characters). -/
theorem C1_coverage_modulo_markers (measure : List Char → ℚ) (maxW : ℚ)
    (Hmono : ∀ s t, measure s ≤ measure (s ++ t))
    (Hsingle : ∀ c : Char, measure [c] ≤ maxW)
    (book : BookData) (pages : List PageData)
    (hok : calculatePagination measure maxW book = Except.ok pages) :
    scrub ((pages.map (fun p => p.content)).flatten) =
      scrub (linearizedText book) := by
  have hfold := calcFold_conservation measure maxW Hmono Hsingle
    (getStructuredBlocks book) initialCalcState
  have htexts : ((getStructuredBlocks book).map sblockText).flatten =
      linearizedText book := by
    unfold getStructuredBlocks linearizedText
    exact structuredBlocks_texts book.chapters
  rw [htexts] at hfold
  have hinit : scrub (pagesConcat initialCalcState) = [] := rfl
  rw [hinit, List.nil_append] at hfold
  simp only [calculatePagination] at hok
  split at hok
  · exact absurd hok (by simp)
  · split at hok
    · have hp := Except.ok.inj hok
      rw [← hp]
      rw [← hfold]
      simp only [pagesConcat, pagePush, enrichPageWithMetadata,
        List.map_append, List.flatten_append, List.map_cons,
        List.flatten_cons]
      simp
    · rename_i hcur
      have hp := Except.ok.inj hok
      rw [← hp]
      rw [← hfold]
      simp only [pagesConcat]
      push_neg at hcur
      rw [hcur]
      simp

theorem heavyWidth_mono (s t : List Char) :
    heavyWidth s ≤ heavyWidth (s ++ t) := by
  simp only [heavyWidth, List.map_append, List.sum_append]
  have ht : 0 ≤ (t.map (fun c => if c = 'Z' then (100 : ℤ) else 1)).sum := by
    apply List.sum_nonneg
    intro x hx
    simp only [List.mem_map] at hx
    obtain ⟨c, _, hc⟩ := hx
    rw [← hc]
    split <;> norm_num
  exact_mod_cast Int.le_add_of_nonneg_right ht

/-- C1 (counterexample): with the monotone `heavyWidth` oracle and positive
width budget `10`, paginating `dropBook` loses the character `Z`: the inner
splitting loop of `calculatePagination` breaks without saving the remainder
when `findFittingText` fits nothing onto a fresh page, so the concatenated
page contents (scrubbed) are `"ba"` while the linearized book text
(scrubbed) is `"baZ"` — a character is dropped even though the geometry is
valid and the oracle monotone. -/
theorem C1_coverage_counterexample :
    (∀ s t : List Char, heavyWidth s ≤ heavyWidth (s ++ t)) ∧
    (0 : ℚ) < 10 ∧
    (calculatePagination heavyWidth 10 dropBook).toOption.map
      (fun ps => scrub ((ps.map (fun p => p.content)).flatten)) =
      some "ba".toList ∧
    scrub (linearizedText dropBook) = "baZ".toList ∧
    ("ba".toList : List Char) ≠ "baZ".toList :=
  ⟨heavyWidth_mono, by norm_num, by decide, by decide, by decide⟩

/-- Witness for `C1_coverage_modulo_markers` on the one-block book with
unit-width characters and budget 100. -/
theorem C1_coverage_modulo_markers_witness :
    scrub ((((calculatePagination unitWidth 100 exBookHook).toOption.getD
      []).map (fun p => p.content)).flatten) =
      scrub (linearizedText exBookHook) :=
  C1_coverage_modulo_markers unitWidth 100 unitWidth_mono
    (fun c => by norm_num [unitWidth]) exBookHook
    ((calculatePagination unitWidth 100 exBookHook).toOption.getD [])
    (by rfl)

end Chavel
